import Mathlib

/-!
filesystem.h and gtfs.h: a shallow embedding and its checked properties

The library keeps one global record (the search path, the write directory, a
cached working directory and a validity flag) and talks to the operating
system through stat, fopen, fread, fwrite, fclose, remove, mkdir and malloc.

* C strings are lists of characters (the bytes before the terminating zero).
* The global record is passed explicitly; the operating system is a value of
  type World that every libc call transforms, and that records each call in
  a trace.
* File names are compared as strings: the model of the operating system has no
  aliasing through dot components, repeated or trailing separators, or links.

The record tokenizer of gtfs.h (get_next_value and its caller
_gtfs__parse_agency) is embedded as pure functions on C strings.
-/

namespace FS

/-! ## Data model -/

/-- C string, without its terminating zero. -/
abbrev CStr := List Char

/-- Compile-time constant FS_MAX_PATH. -/
def FS_MAX_PATH : Nat := 256

/-- Compile-time constant FS_MAX_MOUNTS. -/
def FS_MAX_MOUNTS : Nat := 3

/-- File type reported by fs_get_info. -/
inductive fs_file_type where
  | FS_FILETYPE_NONE
  | FS_FILETYPE_REG
  | FS_FILETYPE_DIR
  | FS_FILETYPE_SYM
  deriving DecidableEq, Repr

/-- Metadata record filled by fs_get_info. -/
structure fs_info where
  type : fs_file_type
  size : Nat
  modtime : Int
  deriving DecidableEq, Repr

/-- Byte buffer handed to fs_write and fs_append: the size bytes at data. -/
structure fs_data where
  data : List Nat
  deriving DecidableEq, Repr

/-- Field size of fs_data. -/
def fs_data.size (d : fs_data) : Nat := d.data.length

/-- Setup descriptor: a nullable write directory and three nullable base paths. -/
structure fs_desc where
  write_dir : Option CStr
  base_paths : Fin 3 → Option CStr

/-- The global record of the library. The array base_path is indexed by natural
numbers; the code only touches indices up to count. The field count is a C int
that is never decremented below zero (a decrement happens only after a slot
below count matched), hence a natural number. -/
structure _fs_state_t where
  count : Nat
  base_path : Nat → CStr
  write_dir : CStr
  cwd : CStr
  valid : Bool

/-- Zero-initialised static storage. -/
def _fs_zero : _fs_state_t :=
  { count := 0, base_path := fun _ => [], write_dir := [], cwd := [], valid := false }

/-! ## Operating system model -/

/-- File type bits of st_mode, as the S_IS macros classify them. -/
inductive st_mode where
  | S_IFREG
  | S_IFDIR
  | S_IFLNK
  | S_IFOTHER
  deriving DecidableEq, Repr

/-- One directory entry: what stat reports and what a read delivers. -/
structure Node where
  mode : st_mode
  content : List Nat
  mtime : Int
  deriving DecidableEq, Repr

/-- Open modes of _fs_native_open. -/
inductive OpenMode where
  | _FS_MREAD
  | _FS_MWRITE
  | _FS_MAPPEND
  deriving DecidableEq, Repr

/-- An open stream. -/
structure FILE where
  path : CStr
  mode : OpenMode
  deriving DecidableEq, Repr

/-- The libc calls the library makes. -/
inductive Call where
  | stat (p : CStr)
  | fopen (p : CStr) (m : OpenMode)
  | ftell (p : CStr)
  | fread (p : CStr) (n : Nat)
  | fwrite (p : CStr) (n : Nat)
  | fclose (p : CStr)
  | malloc (n : Nat)
  | remove (p : CStr)
  | mkdir (p : CStr)
  | getcwd
  deriving DecidableEq, Repr

/-- Result of the mkdir system call: success, or errno EEXIST, or another errno. -/
inductive MkdirResult where
  | ok
  | eexist
  | efail
  deriving DecidableEq, Repr

/-- The operating system as the library sees it: the directory entries keyed by
path string, the open streams, the bytes the device can still take, the bytes
malloc can still deliver, the clock, the process working directory (none when
getcwd fails) and the calls made so far. -/
structure World where
  nodes : List (CStr × Node)
  handles : List FILE
  room : Nat
  heap : Nat
  now : Int
  pwd : Option CStr
  trace : List Call
  deriving DecidableEq

/-- Entry stored under a path. -/
def lookupNode : List (CStr × Node) → CStr → Option Node
  | [], _ => none
  | (q, nd) :: rest, p => if q = p then some nd else lookupNode rest p

/-- Create or replace the entry under a path. -/
def setNode : List (CStr × Node) → CStr → Node → List (CStr × Node)
  | [], p, nd => [(p, nd)]
  | (q, old) :: rest, p, nd =>
    if q = p then (q, nd) :: rest else (q, old) :: setNode rest p nd

/-- Drop the entry under a path. -/
def delNode : List (CStr × Node) → CStr → List (CStr × Node)
  | [], _ => []
  | (q, old) :: rest, p => if q = p then delNode rest p else (q, old) :: delNode rest p

/-- Path of the containing directory: everything before the last separator.
The empty result stands for the working directory or the root. -/
def dirname (p : CStr) : CStr :=
  ((p.reverse.dropWhile (fun c => c != '/')).drop 1).reverse

/-- The containing directory exists and is a directory. -/
def parentOk (nodes : List (CStr × Node)) (p : CStr) : Bool :=
  match dirname p with
  | [] => true
  | d =>
    match lookupNode nodes d with
    | some nd => nd.mode == st_mode.S_IFDIR
    | none => false

/-- Some entry lies directly inside the directory. -/
def hasChildren (nodes : List (CStr × Node)) (p : CStr) : Bool :=
  nodes.any (fun e => dirname e.1 == p)

/-- Append one call to the trace. -/
def World.log (w : World) (c : Call) : World :=
  { w with trace := w.trace ++ [c] }

/-- System call stat. -/
def os_stat (w : World) (p : CStr) : Option Node × World :=
  (lookupNode w.nodes p, w.log (Call.stat p))

/-- Library call fopen with mode rb, wb or a. -/
def os_fopen (w : World) (p : CStr) (m : OpenMode) : Option FILE × World :=
  let w1 := w.log (Call.fopen p m)
  match m with
  | OpenMode._FS_MREAD =>
    match lookupNode w.nodes p with
    | some _ => (some ⟨p, m⟩, { w1 with handles := ⟨p, m⟩ :: w1.handles })
    | none => (none, w1)
  | OpenMode._FS_MWRITE =>
    match lookupNode w.nodes p with
    | some nd =>
      if nd.mode = st_mode.S_IFDIR then (none, w1)
      else (some ⟨p, m⟩,
        { w1 with nodes := setNode w.nodes p { nd with content := [], mtime := w.now },
                  handles := ⟨p, m⟩ :: w1.handles })
    | none =>
      if parentOk w.nodes p then
        (some ⟨p, m⟩,
          { w1 with nodes := setNode w.nodes p ⟨st_mode.S_IFREG, [], w.now⟩,
                    handles := ⟨p, m⟩ :: w1.handles })
      else (none, w1)
  | OpenMode._FS_MAPPEND =>
    match lookupNode w.nodes p with
    | some nd =>
      if nd.mode = st_mode.S_IFDIR then (none, w1)
      else (some ⟨p, m⟩, { w1 with handles := ⟨p, m⟩ :: w1.handles })
    | none =>
      if parentOk w.nodes p then
        (some ⟨p, m⟩,
          { w1 with nodes := setNode w.nodes p ⟨st_mode.S_IFREG, [], w.now⟩,
                    handles := ⟨p, m⟩ :: w1.handles })
      else (none, w1)

/-- Size query: fseek to the end, ftell, fseek back to the start. -/
def os_ftell (w : World) (fp : FILE) : Nat × World :=
  (match lookupNode w.nodes fp.path with
   | some nd => nd.content.length
   | none => 0,
   w.log (Call.ftell fp.path))

/-- Library call malloc: succeeds while the heap can deliver the bytes. -/
def os_malloc (w : World) (n : Nat) : Bool × World :=
  let w1 := w.log (Call.malloc n)
  if n ≤ w.heap then (true, { w1 with heap := w.heap - n }) else (false, w1)

/-- Library call fread of n bytes from the start of the stream. -/
def os_fread (w : World) (fp : FILE) (n : Nat) : List Nat × World :=
  (match lookupNode w.nodes fp.path with
   | some nd => nd.content.take n
   | none => [],
   w.log (Call.fread fp.path n))

/-- Library call fwrite: the device takes as many bytes as it has room for and
the call reports how many it took. -/
def os_fwrite (w : World) (fp : FILE) (bytes : List Nat) : Nat × World :=
  let k := if fp.mode = OpenMode._FS_MREAD then 0 else min bytes.length w.room
  let nodes := match lookupNode w.nodes fp.path with
    | some nd => setNode w.nodes fp.path
        { nd with content := nd.content ++ bytes.take k, mtime := w.now }
    | none => w.nodes
  (k, { (w.log (Call.fwrite fp.path bytes.length)) with nodes := nodes, room := w.room - k })

/-- Library call fclose. -/
def os_fclose (w : World) (fp : FILE) : World :=
  { (w.log (Call.fclose fp.path)) with handles := w.handles.erase fp }

/-- Library call remove: unlinks a file or removes an empty directory. -/
def os_remove (w : World) (p : CStr) : Bool × World :=
  let w1 := w.log (Call.remove p)
  match lookupNode w.nodes p with
  | none => (false, w1)
  | some nd =>
    if nd.mode = st_mode.S_IFDIR ∧ hasChildren w.nodes p = true then (false, w1)
    else (true, { w1 with nodes := delNode w.nodes p })

/-- System call mkdir. -/
def os_mkdir (w : World) (p : CStr) : MkdirResult × World :=
  let w1 := w.log (Call.mkdir p)
  match lookupNode w.nodes p with
  | some _ => (MkdirResult.eexist, w1)
  | none =>
    if parentOk w.nodes p then
      (MkdirResult.ok, { w1 with nodes := setNode w.nodes p ⟨st_mode.S_IFDIR, [], w.now⟩ })
    else (MkdirResult.efail, w1)

/-! ## The library: private functions -/

/-- Source function _fs_strempty: the first byte of the buffer is zero. -/
def _fs_strempty (str : CStr) : Bool :=
  match str with
  | [] => true
  | _ :: _ => false

/-- Source function _fs_strcpy, as the string the destination holds afterwards:
strncpy of FS_MAX_PATH bytes followed by a zero at the last position, or all
zeros for a NULL source. -/
def _fs_strcpy (src : Option CStr) : CStr :=
  match src with
  | some s => s.take (FS_MAX_PATH - 1)
  | none => []

/-- The string sprintf writes in _fs_concat_path: directory and file name with
one separator in between, or with none when the directory already ends in one.
For an empty directory string the source reads the byte in front of the
buffer; in the global record that byte is the last byte of the preceding
member, a zero, so the comparison with the separator is false there. -/
def join_path (dir : CStr) (filename : CStr) : CStr :=
  if dir.getLast? = some '/' then dir ++ filename else dir ++ '/' :: filename

/-- Source function _fs_concat_path: none is the false return (destination
untouched), some is the string written to the destination. -/
def _fs_concat_path (dir : CStr) (filename : CStr) : Option CStr :=
  if dir.length + filename.length + 2 > FS_MAX_PATH then none
  else some (join_path dir filename)

/-- Type chosen by the S_ISREG, S_ISDIR, S_ISLNK cascade. -/
def file_type_of (m : st_mode) : fs_file_type :=
  match m with
  | st_mode.S_IFREG => fs_file_type.FS_FILETYPE_REG
  | st_mode.S_IFDIR => fs_file_type.FS_FILETYPE_DIR
  | st_mode.S_IFLNK => fs_file_type.FS_FILETYPE_SYM
  | st_mode.S_IFOTHER => fs_file_type.FS_FILETYPE_NONE

/-- Source function _fs_get_file_info. The argument info is the nullable
pointer: none for NULL, some for the record it points to; the second component
of the result is that record after the call. -/
def _fs_get_file_info (w : World) (filename : CStr) (info : Option fs_info) :
    Bool × Option fs_info × World :=
  match os_stat w filename with
  | (none, w1) => (false, info, w1)
  | (some nd, w1) =>
    match info with
    | none => (true, none, w1)
    | some _ => (true, some ⟨file_type_of nd.mode, nd.content.length, nd.mtime⟩, w1)

/-- Source function _fs_native_delete. -/
def _fs_native_delete (w : World) (filename : CStr) : Bool × World :=
  os_remove w filename

/-- Loop of _fs_native_mkdir: the pointer p walks over the bytes still ahead;
the argument done is the prefix of the buffer in front of p. At every
separator the prefix in front of it is created; the result is false as soon as
a mkdir fails with an errno other than EEXIST. -/
def _fs_native_mkdir_loop (done : CStr) : CStr → World → Bool × World
  | [], w => (true, w)
  | c :: rest, w =>
    if c = '/' then
      match os_mkdir w done with
      | (MkdirResult.efail, w1) => (false, w1)
      | (_, w1) => _fs_native_mkdir_loop (done ++ [c]) rest w1
    else _fs_native_mkdir_loop (done ++ [c]) rest w

/-- Source function _fs_native_mkdir. The loop starts at the second byte of the
copy and stops at its terminating zero. -/
def _fs_native_mkdir (w : World) (path : CStr) : Bool × World :=
  if path.length > FS_MAX_PATH - 1 then (false, w)
  else
    match _fs_native_mkdir_loop (path.take 1) (path.drop 1) w with
    | (false, w1) => (false, w1)
    | (true, w1) =>
      match os_mkdir w1 path with
      | (MkdirResult.efail, w2) => (false, w2)
      | (_, w2) => (true, w2)

/-- Source function _fs_native_open. -/
def _fs_native_open (s : _fs_state_t) (w : World) (filename : CStr) (mode : OpenMode) :
    Option FILE × World :=
  match mode with
  | OpenMode._FS_MREAD =>
    match _fs_get_file_info w filename none with
    | (false, _, w1) => (none, w1)
    | (true, _, w1) => os_fopen w1 filename mode
  | _ =>
    if _fs_strempty s.write_dir then (none, w)
    else os_fopen w filename mode

/-- Result of a read: the returned pointer (none for NULL, some for the bytes
of the allocated buffer) and the value of the out-parameter size afterwards. -/
structure ReadResult where
  ptr : Option (List Nat)
  size : Nat
  deriving DecidableEq, Repr

/-- Source function _fs_native_read; the argument size is the value the
out-parameter holds before the call. -/
def _fs_native_read (w : World) (fp : Option FILE) (size : Nat) : ReadResult × World :=
  match fp with
  | none => (⟨none, size⟩, w)
  | some f =>
    match os_ftell w f with
    | (n, w1) =>
      match os_malloc w1 n with
      | (false, w2) => (⟨none, n⟩, w2)
      | (true, w2) =>
        match os_fread w2 f n with
        | (bytes, w3) => (⟨some bytes, n⟩, os_fclose w3 f)

/-- Source function _fs_native_write. -/
def _fs_native_write (w : World) (fp : Option FILE) (data : fs_data) : Bool × World :=
  match fp with
  | none => (false, w)
  | some f =>
    match os_fwrite w f data.data with
    | (n, w1) => (n == data.size, os_fclose w1 f)

/-! ## The library: public functions -/

/-- The global record together with the operating system. -/
structure Sys where
  fs : _fs_state_t
  os : World

/-- Body of the loop of fs_setup for slot i. -/
def fs_setup_slot (desc : fs_desc) (i : Fin 3) (s : _fs_state_t) : _fs_state_t :=
  match desc.base_paths i with
  | some p =>
    { s with base_path := fun j => if j = i.val then _fs_strcpy (some p) else s.base_path j,
             count := s.count + 1 }
  | none => s

/-- Source function fs_setup. -/
def fs_setup (σ : Sys) (desc : fs_desc) : Sys :=
  let s0 := { σ.fs with write_dir := _fs_strcpy desc.write_dir }
  let s1 := fs_setup_slot desc 0 s0
  let s2 := fs_setup_slot desc 1 s1
  let s3 := fs_setup_slot desc 2 s2
  { σ with fs := { s3 with valid := true } }

/-- Source function fs_is_valid. -/
def fs_is_valid (σ : Sys) : Bool := σ.fs.valid

/-- The search loop shared by fs_insert_basepath and fs_remove_basepath: dir runs
from slot n - 1 down to slot 0 and stops at the first slot that strcmp finds
equal to path. -/
def find_mount (base_path : Nat → CStr) (path : CStr) : Nat → Option Nat
  | 0 => none
  | n + 1 => if base_path n = path then some n else find_mount base_path path n

/-- Source function fs_insert_basepath. -/
def fs_insert_basepath (σ : Sys) (path : CStr) : Bool × Sys :=
  let s := σ.fs
  if path.length ≥ FS_MAX_PATH ∨ s.count ≥ FS_MAX_MOUNTS then (false, σ)
  else
    match find_mount s.base_path path s.count with
    | some _ => (false, σ)
    | none =>
      (true, { σ with fs :=
        { s with base_path := fun j => if j = s.count then path else s.base_path j,
                 count := s.count + 1 } })

/-- Source function fs_remove_basepath: memmove of the slots behind the hit one
position down, memset of the last used slot, decrement of count. -/
def fs_remove_basepath (σ : Sys) (path : CStr) : Bool × Sys :=
  let s := σ.fs
  match find_mount s.base_path path s.count with
  | none => (false, σ)
  | some idx =>
    let moved : Nat → CStr := fun j =>
      if idx ≤ j ∧ j < idx + (s.count - idx - 1) then s.base_path (j + 1) else s.base_path j
    let cleared : Nat → CStr := fun j => if j = s.count - 1 then [] else moved j
    (true, { σ with fs := { s with base_path := cleared, count := s.count - 1 } })

/-- Loop of fs_exists over the slots n - 1 down to 0. -/
def fs_exists_loop (s : _fs_state_t) (filename : CStr) : Nat → World → Bool × World
  | 0, w => (false, w)
  | n + 1, w =>
    match _fs_concat_path (s.base_path n) filename with
    | none => fs_exists_loop s filename n w
    | some buf =>
      match _fs_get_file_info w buf none with
      | (true, _, w1) => (true, w1)
      | (false, _, w1) => fs_exists_loop s filename n w1

/-- Source function fs_exists. -/
def fs_exists (σ : Sys) (filename : CStr) : Bool × Sys :=
  match fs_exists_loop σ.fs filename σ.fs.count σ.os with
  | (r, w) => (r, { σ with os := w })

/-- Loop of fs_read over the slots n - 1 down to 0: a slot whose join fails is
skipped, the first slot whose join succeeds decides the result. -/
def fs_read_loop (s : _fs_state_t) (name : CStr) (size : Nat) : Nat → World → ReadResult × World
  | 0, w => (⟨none, size⟩, w)
  | n + 1, w =>
    match _fs_concat_path (s.base_path n) name with
    | none => fs_read_loop s name size n w
    | some buf =>
      match _fs_native_open s w buf OpenMode._FS_MREAD with
      | (fp, w1) => _fs_native_read w1 fp size

/-- Source function fs_read; the argument size is the value of the
out-parameter before the call. -/
def fs_read (σ : Sys) (name : CStr) (size : Nat) : ReadResult × Sys :=
  match fs_read_loop σ.fs name size σ.fs.count σ.os with
  | (r, w) => (r, { σ with os := w })

/-- Common body of fs_write and fs_append. -/
def fs_write_mode (mode : OpenMode) (σ : Sys) (name : CStr) (data : fs_data) : Bool × Sys :=
  if _fs_strempty σ.fs.write_dir then (false, σ)
  else
    match _fs_concat_path σ.fs.write_dir name with
    | none => (false, σ)
    | some buf =>
      match _fs_native_open σ.fs σ.os buf mode with
      | (fp, w1) =>
        match _fs_native_write w1 fp data with
        | (r, w2) => (r, { σ with os := w2 })

/-- Source function fs_write. -/
def fs_write (σ : Sys) (name : CStr) (data : fs_data) : Bool × Sys :=
  fs_write_mode OpenMode._FS_MWRITE σ name data

/-- Source function fs_append. -/
def fs_append (σ : Sys) (name : CStr) (data : fs_data) : Bool × Sys :=
  fs_write_mode OpenMode._FS_MAPPEND σ name data

/-- Loop of fs_get_info over the slots n - 1 down to 0; info is the record the
caller's pointer refers to. -/
def fs_get_info_loop (s : _fs_state_t) (path : CStr) :
    Nat → World → fs_info → Bool × fs_info × World
  | 0, w, info => (false, info, w)
  | n + 1, w, info =>
    match _fs_concat_path (s.base_path n) path with
    | none => fs_get_info_loop s path n w info
    | some buf =>
      match _fs_get_file_info w buf (some info) with
      | (true, some info1, w1) => (true, info1, w1)
      | (true, none, w1) => (true, info, w1)
      | (false, _, w1) => fs_get_info_loop s path n w1 info

/-- Source function fs_get_info: the result, the caller's record afterwards,
and the new system state. -/
def fs_get_info (σ : Sys) (path : CStr) (info : fs_info) : Bool × fs_info × Sys :=
  match fs_get_info_loop σ.fs path σ.fs.count σ.os info with
  | (r, info1, w) => (r, info1, { σ with os := w })

/-- Source function fs_mkdir. -/
def fs_mkdir (σ : Sys) (path : CStr) : Bool × Sys :=
  if _fs_strempty σ.fs.write_dir then (false, σ)
  else
    match _fs_concat_path σ.fs.write_dir path with
    | none => (false, σ)
    | some buf =>
      match _fs_native_mkdir σ.os buf with
      | (r, w) => (r, { σ with os := w })

/-- Source function fs_delete. -/
def fs_delete (σ : Sys) (name : CStr) : Bool × Sys :=
  if _fs_strempty σ.fs.write_dir then (false, σ)
  else
    match _fs_concat_path σ.fs.write_dir name with
    | none => (false, σ)
    | some buf =>
      match _fs_native_delete σ.os buf with
      | (r, w) => (r, { σ with os := w })

/-- Source function fs_shutdown; none is the failed FS_ASSERT on the validity
flag, after which the call does not return. -/
def fs_shutdown (σ : Sys) : Option Sys :=
  if σ.fs.valid then some { σ with fs := { σ.fs with valid := false } } else none

/-- Library call getcwd into a buffer of the given size: fails when there is no
working directory or when it does not fit together with its terminating zero. -/
def os_getcwd (w : World) (size : Nat) : Option CStr × World :=
  let w1 := w.log Call.getcwd
  match w.pwd with
  | none => (none, w1)
  | some p => if p.length + 1 ≤ size then (some p, w1) else (none, w1)

/-- Source function fs_get_cwd: the cached string when there is one, else the
result of getcwd, which is cached; none is the NULL return. -/
def fs_get_cwd (σ : Sys) : Option CStr × Sys :=
  match σ.fs.cwd with
  | [] =>
    match os_getcwd σ.os FS_MAX_PATH with
    | (none, w) => (none, { σ with os := w })
    | (some p, w) => (some p, { fs := { σ.fs with cwd := p }, os := w })
  | c :: rest => (some (c :: rest), σ)

/-- The mount-table invariant: the first count slots are pairwise distinct and
count is at most FS_MAX_MOUNTS. -/
def mount_invariant (s : _fs_state_t) : Prop :=
  (∀ i, i < s.count → ∀ j, j < s.count → s.base_path i = s.base_path j → i = j) ∧
    s.count ≤ FS_MAX_MOUNTS

instance (s : _fs_state_t) : Decidable (mount_invariant s) := by
  unfold mount_invariant
  exact inferInstance

/-- The mount sequence: the first count slots, lowest index first. -/
def mounts (s : _fs_state_t) : List CStr :=
  (List.range s.count).map s.base_path

/-- The system before any call: zeroed global record, given operating system. -/
def Sys.boot (w : World) : Sys := ⟨_fs_zero, w⟩

/-- An operating system without entries and with ample resources. -/
def World.blank : World :=
  { nodes := [], handles := [], room := 1000000, heap := 1000000, now := 0,
    pwd := none, trace := [] }

/-! ## Concrete systems used to evaluate the code -/

/-- Directory entry of a directory. -/
def dirNode : Node := ⟨st_mode.S_IFDIR, [], 0⟩

/-- Regular file with the given bytes. -/
def regNode (bytes : List Nat) : Node := ⟨st_mode.S_IFREG, bytes, 0⟩

/-- Two directories a and b; only a holds a file x. -/
def lowerOnlyWorld : World :=
  { World.blank with
    nodes := [("a".toList, dirNode), ("b".toList, dirNode), ("a/x".toList, regNode [1, 2, 3])] }

/-- The system after inserting the mounts a and then b over lowerOnlyWorld. -/
def lowerOnlySys : Sys :=
  (fs_insert_basepath (fs_insert_basepath (Sys.boot lowerOnlyWorld) "a".toList).2 "b".toList).2

/-- The system after inserting foo, foo/bar and foo/bar/fizz into an empty table. -/
def threeMountSys : Sys :=
  (fs_insert_basepath
    (fs_insert_basepath
      (fs_insert_basepath (Sys.boot World.blank) "foo".toList).2 "foo/bar".toList).2
    "foo/bar/fizz".toList).2

/-- A mount path of 254 characters. -/
def longMount : CStr := List.replicate 254 'b'

/-- Two directories, a and the long one, each holding a regular file x. -/
def overlayWorld : World :=
  { World.blank with
    nodes := [("a".toList, dirNode), (longMount, dirNode),
              ("a/x".toList, regNode [1]), (longMount ++ "/x".toList, regNode [2])] }

/-- The system after inserting a and then the long mount over overlayWorld. -/
def overlaySys : Sys :=
  (fs_insert_basepath (fs_insert_basepath (Sys.boot overlayWorld) "a".toList).2 longMount).2

/-- Two directories a and b, each holding a regular file x. -/
def twoCopiesWorld : World :=
  { World.blank with
    nodes := [("a".toList, dirNode), ("b".toList, dirNode),
              ("a/x".toList, regNode [1]), ("b/x".toList, regNode [2, 0, 2])] }

/-- A read mount m holding a regular file f and a directory d, an empty
directory save, and nothing named f under save. -/
def mountOnlyWorld : World :=
  { World.blank with
    nodes := [("m".toList, dirNode), ("save".toList, dirNode),
              ("m/f".toList, regNode [7, 7]), ("m/d".toList, dirNode)] }

/-- The system set up over mountOnlyWorld with write directory save and the
single base path m. -/
def mountOnlySys : Sys :=
  fs_setup (Sys.boot mountOnlyWorld)
    ⟨some "save".toList, fun i => if i = 0 then some "m".toList else none⟩

/-- The system set up over mountOnlyWorld with no write directory and the
single base path m. -/
def noWriteDirSys : Sys :=
  fs_setup (Sys.boot mountOnlyWorld) ⟨none, fun i => if i = 0 then some "m".toList else none⟩

/-- The path a call carries, if any. -/
def Call.path : Call → Option CStr
  | Call.stat p => some p
  | Call.fopen p _ => some p
  | Call.ftell p => some p
  | Call.fread p _ => some p
  | Call.fwrite p _ => some p
  | Call.fclose p => some p
  | Call.malloc _ => none
  | Call.remove p => some p
  | Call.mkdir p => some p
  | Call.getcwd => none

/-- A mount path of 250 characters. -/
def mount250 : CStr := List.replicate 250 'd'

/-- The directory mount250 holding a regular file abcde. -/
def mount250World : World :=
  { World.blank with
    nodes := [(mount250, dirNode), (mount250 ++ "/abcde".toList, regNode [9])] }

/-- The system after inserting mount250 over mount250World. -/
def mount250Sys : Sys := (fs_insert_basepath (Sys.boot mount250World) mount250).2

/-- A directory save holding a regular file f with three bytes. -/
def saveWorld : World :=
  { World.blank with
    nodes := [("save".toList, dirNode), ("save/f".toList, regNode [5, 5, 5])] }

/-- The system set up over saveWorld with save as write directory and as the
only base path. -/
def saveSys : Sys :=
  fs_setup (Sys.boot saveWorld)
    ⟨some "save".toList, fun i => if i = 0 then some "save".toList else none⟩

/-- The non-NULL base paths of a descriptor, in array order. -/
def desc_paths (desc : fs_desc) : List CStr :=
  [desc.base_paths 0, desc.base_paths 1, desc.base_paths 2].filterMap id

/-- The descriptor of the setup test: write directory buzz, base paths foo,
bar, fizz. -/
def testDesc : fs_desc :=
  ⟨some "buzz".toList,
   fun i => if i = 0 then some "foo".toList else if i = 1 then some "bar".toList
     else some "fizz".toList⟩

/-- A descriptor whose only base path a sits in the middle array slot. -/
def gapDesc : fs_desc := ⟨none, fun i => if i = 1 then some "a".toList else none⟩

/-- A descriptor with the single base path b in the first array slot. -/
def oneDesc : fs_desc := ⟨none, fun i => if i = 0 then some "b".toList else none⟩

/-- A descriptor naming the base path a twice. -/
def dupDesc : fs_desc := ⟨none, fun i => if i = 2 then none else some "a".toList⟩

/-- The system saveSys with a heap of two bytes, one less than the file save/f
holds. -/
def tightHeapSys : Sys := { saveSys with os := { saveSys.os with heap := 2 } }

/-- Library call strcmp of the allocated buffer against a string without zero
bytes (given without its terminating zero): some true is the result 0, some
false a non-zero result, none a read behind the last byte of the buffer. -/
def strcmp_buf : List Nat → List Nat → Option Bool
  | [], _ => none
  | b :: _, [] => some (b == 0)
  | b :: bs, c :: cs => if b = c then strcmp_buf bs cs else some false

/-- A descriptor without write directory and without base paths. -/
def emptyDesc : fs_desc := ⟨none, fun _ => none⟩

/-- Index of the byte that _fs_concat_path compares with the separator:
dirlen - 1 in the 64-bit unsigned arithmetic of size_t. -/
def concat_last_index (dir : CStr) : Nat :=
  (dir.length + 18446744073709551616 - 1) % 18446744073709551616

/-- The directories to create for a path, in the words of the specification:
every non-empty prefix that ends in front of a separator, shortest first, and
finally the full path. -/
def spec_mkdir_attempts (path : CStr) : List CStr :=
  ((List.range path.length).filter (fun i => decide (1 ≤ i) && (path.get? i == some '/'))).map
    (fun i => path.take i) ++ [path]

/-- Creating a chain of directories, in the words of the specification: the
attempts are made in order, already-exists is tolerated, and the first attempt
that fails for another reason ends the chain with false. -/
def spec_mkdir_chain : List CStr → World → Bool × World
  | [], w => (true, w)
  | p :: ps, w =>
    match os_mkdir w p with
    | (MkdirResult.efail, w1) => (false, w1)
    | (_, w1) => spec_mkdir_chain ps w1

/-- The prefixes handed to mkdir by the loop of _fs_native_mkdir: done followed
by the bytes of rest in front of each separator in rest. -/
def loop_cuts (done rest : CStr) : List CStr :=
  ((List.range rest.length).filter (fun k => rest.get? k == some '/')).map
    (fun k => done ++ rest.take k)

/-- A descriptor with a write directory of 300 characters and a first base path
of 256 characters. -/
def overlongDesc : fs_desc :=
  ⟨some (List.replicate 300 'w'),
   fun i => if i = 0 then some (List.replicate 256 'p') else none⟩

/-- The system with the validity flag set to the given value. -/
def set_valid (b : Bool) (σ : Sys) : Sys := { σ with fs := { σ.fs with valid := b } }

/-- The system saveSys after fs_shutdown. -/
def shutSys : Sys := set_valid false saveSys

/-! ## gtfs.h: the record tokenizer -/

/-- The scan of get_next_value over the string at currentPosition: the bytes in
front of the first comma or of the terminating zero (the field that is copied
and returned), and the string at the local pointer end after the step over the
comma, which the function assigns to its parameter currentPosition. -/
def get_next_value_scan : CStr → CStr × CStr
  | [] => ([], [])
  | c :: rest =>
    if c = ',' then ([], rest)
    else ((c :: (get_next_value_scan rest).1), (get_next_value_scan rest).2)

/-- Source function get_next_value, for a successful malloc: the copied field.
The parameter is passed by value, so the position assigned to it at the end of
the function is lost on return. -/
def get_next_value (currentPosition : CStr) : CStr :=
  (get_next_value_scan currentPosition).1

/-- Source function _gtfs__parse_agency, as the labels and values it prints:
eight calls of get_next_value, each on the unchanged pointer data. -/
def _gtfs__parse_agency (line : CStr) : List (CStr × CStr) :=
  let data := line
  [("id".toList, get_next_value data),
   ("*name".toList, get_next_value data),
   ("*url".toList, get_next_value data),
   ("*timezone".toList, get_next_value data),
   ("*lang".toList, get_next_value data),
   ("*phone".toList, get_next_value data),
   ("*fare_url".toList, get_next_value data),
   ("*email".toList, get_next_value data)]

/-- The comma-separated fields of a line, in the words of the claim: each field
is the text up to the next comma or the end of the line. -/
def spec_fields : CStr → List CStr
  | [] => [[]]
  | c :: rest =>
    if c = ',' then [] :: spec_fields rest
    else
      match spec_fields rest with
      | [] => [[c]]
      | f :: fs => (c :: f) :: fs

/-- An agency record with eight fields. -/
def agencyLine : CStr :=
  "7,Metro,http://m.example,UTC,en,555,http://m.example/f,a@m.example".toList

/-! ## Lemmas about the mount table -/

theorem find_mount_none_iff (bp : Nat → CStr) (path : CStr) (n : Nat) :
    find_mount bp path n = none ↔ ∀ i, i < n → bp i ≠ path := by
  induction n with
  | zero => simp [find_mount]
  | succ k ih =>
    unfold find_mount
    by_cases h : bp k = path
    · simp only [h, if_true]
      constructor
      · intro hc; cases hc
      · intro hall; exact absurd h (hall k (Nat.lt_succ_self k))
    · simp only [h, if_false, ih]
      constructor
      · intro hall i hi
        rcases Nat.lt_succ_iff_lt_or_eq.mp hi with hlt | heq
        · exact hall i hlt
        · subst heq; exact h
      · intro hall i hi
        exact hall i (Nat.lt_succ_of_lt hi)

theorem find_mount_some_iff (bp : Nat → CStr) (path : CStr) (n idx : Nat) :
    find_mount bp path n = some idx ↔
      idx < n ∧ bp idx = path ∧ ∀ j, idx < j → j < n → bp j ≠ path := by
  induction n with
  | zero => simp [find_mount]
  | succ k ih =>
    unfold find_mount
    by_cases h : bp k = path
    · simp only [h, if_true, Option.some.injEq]
      constructor
      · intro hk
        subst hk
        exact ⟨Nat.lt_succ_self _, h, fun j h1 h2 => absurd h1 (by omega)⟩
      · rintro ⟨hlt, _, hmax⟩
        by_contra hne
        have : idx < k := by omega
        exact hmax k this (Nat.lt_succ_self k) h
    · simp only [h, if_false, ih]
      constructor
      · rintro ⟨hlt, heq, hmax⟩
        refine ⟨Nat.lt_succ_of_lt hlt, heq, ?_⟩
        intro j h1 h2
        rcases Nat.lt_succ_iff_lt_or_eq.mp h2 with h3 | h3
        · exact hmax j h1 h3
        · subst h3; exact h
      · rintro ⟨hlt, heq, hmax⟩
        have hne : idx ≠ k := by
          intro hk; subst hk; exact h heq
        exact ⟨by omega, heq, fun j h1 h2 => hmax j h1 (Nat.lt_succ_of_lt h2)⟩

theorem find_mount_isSome_iff (bp : Nat → CStr) (path : CStr) (n : Nat) :
    (∃ idx, find_mount bp path n = some idx) ↔ ∃ i, i < n ∧ bp i = path := by
  constructor
  · rintro ⟨idx, h⟩
    exact ⟨idx, ((find_mount_some_iff bp path n idx).mp h).1,
      ((find_mount_some_iff bp path n idx).mp h).2.1⟩
  · rintro ⟨i, hi, hp⟩
    cases hf : find_mount bp path n with
    | none => exact absurd hp ((find_mount_none_iff bp path n).mp hf i hi)
    | some idx => exact ⟨idx, rfl⟩

theorem mounts_length (s : _fs_state_t) : (mounts s).length = s.count := by
  simp [mounts]

theorem mounts_getElem? (s : _fs_state_t) (i : Nat) :
    (mounts s)[i]? = if i < s.count then some (s.base_path i) else none := by
  unfold mounts
  by_cases h : i < s.count
  · simp [h, List.getElem?_range h]
  · simp [h]
    omega

/-! ## Lemmas about the operating system model -/

theorem lookupNode_setNode_ne (l : List (CStr × Node)) (p q : CStr) (nd : Node) (h : q ≠ p) :
    lookupNode (setNode l p nd) q = lookupNode l q := by
  induction l with
  | nil =>
    have h2 : ¬ p = q := fun e => h e.symm
    simp [setNode, lookupNode, h2]
  | cons e rest ih =>
    obtain ⟨k, old⟩ := e
    unfold setNode
    by_cases hk : k = p
    · have h3 : ¬ p = q := fun e => h e.symm
      simp [hk, lookupNode, h3]
    · simp only [hk, if_false]
      unfold lookupNode
      by_cases hq : k = q
      · simp [hq]
      · simp only [hq, if_false]
        exact ih

theorem lookupNode_setNode_self (l : List (CStr × Node)) (p : CStr) (nd : Node) :
    lookupNode (setNode l p nd) p = some nd := by
  induction l with
  | nil => simp [setNode, lookupNode]
  | cons e rest ih =>
    obtain ⟨k, old⟩ := e
    unfold setNode
    by_cases hk : k = p
    · simp [hk, lookupNode]
    · simp only [hk, if_false]
      unfold lookupNode
      simp only [hk, if_false]
      exact ih

theorem lookupNode_delNode_self (l : List (CStr × Node)) (p : CStr) :
    lookupNode (delNode l p) p = none := by
  induction l with
  | nil => rfl
  | cons e rest ih =>
    obtain ⟨k, old⟩ := e
    unfold delNode
    by_cases hk : k = p
    · simp only [hk, if_true]
      exact ih
    · simp only [hk, if_false]
      unfold lookupNode
      simp only [hk, if_false]
      exact ih

theorem os_fopen_handle (w : World) (p : CStr) (m : OpenMode) (f : FILE)
    (h : (os_fopen w p m).1 = some f) : f = ⟨p, m⟩ := by
  unfold os_fopen at h
  cases m <;> simp only [] at h <;> split at h <;> (try split at h) <;> simp at h <;>
    exact h.symm

theorem os_fopen_trace (w : World) (p : CStr) (m : OpenMode) :
    (os_fopen w p m).2.trace = w.trace ++ [Call.fopen p m] := by
  unfold os_fopen
  cases m <;> simp only [] <;> split <;> (try split) <;> rfl

theorem os_fopen_nodes_ne (w : World) (p q : CStr) (m : OpenMode) (h : q ≠ p) :
    lookupNode (os_fopen w p m).2.nodes q = lookupNode w.nodes q := by
  unfold os_fopen
  cases m <;> simp only [] <;> split <;> (try split) <;>
    first
    | rfl
    | exact lookupNode_setNode_ne _ _ _ _ h

theorem os_fwrite_nodes_ne (w : World) (f : FILE) (bytes : List Nat) (q : CStr)
    (h : q ≠ f.path) :
    lookupNode (os_fwrite w f bytes).2.nodes q = lookupNode w.nodes q := by
  unfold os_fwrite
  simp only []
  split
  · exact lookupNode_setNode_ne _ _ _ _ h
  · rfl

theorem os_fwrite_trace (w : World) (f : FILE) (bytes : List Nat) :
    (os_fwrite w f bytes).2.trace = w.trace ++ [Call.fwrite f.path bytes.length] := rfl

theorem os_fclose_nodes (w : World) (f : FILE) : (os_fclose w f).nodes = w.nodes := rfl

theorem os_fclose_trace (w : World) (f : FILE) :
    (os_fclose w f).trace = w.trace ++ [Call.fclose f.path] := rfl

theorem log_nodes (w : World) (c : Call) : (w.log c).nodes = w.nodes := rfl

theorem get_file_info_null (w : World) (p : CStr) :
    _fs_get_file_info w p none =
      ((lookupNode w.nodes p).isSome, none, w.log (Call.stat p)) := by
  unfold _fs_get_file_info os_stat
  cases lookupNode w.nodes p <;> rfl

theorem get_file_info_ptr (w : World) (p : CStr) (info : fs_info) :
    _fs_get_file_info w p (some info) =
      match lookupNode w.nodes p with
      | none => (false, some info, w.log (Call.stat p))
      | some nd =>
        (true, some ⟨file_type_of nd.mode, nd.content.length, nd.mtime⟩, w.log (Call.stat p)) := by
  unfold _fs_get_file_info os_stat
  cases lookupNode w.nodes p <;> rfl

/-- The loop of fs_exists only appends to the trace. -/
theorem fs_exists_loop_frame (s : _fs_state_t) (name : CStr) (n : Nat) (w : World) :
    ∃ t, (fs_exists_loop s name n w).2 = { w with trace := w.trace ++ t } := by
  induction n generalizing w with
  | zero => exact ⟨[], by simp [fs_exists_loop]⟩
  | succ k ih =>
    unfold fs_exists_loop
    cases hc : _fs_concat_path (s.base_path k) name with
    | none => exact ih w
    | some buf =>
      simp only [get_file_info_null]
      cases hl : (lookupNode w.nodes buf).isSome with
      | true => exact ⟨[Call.stat buf], rfl⟩
      | false =>
        obtain ⟨t, ht⟩ := ih (w.log (Call.stat buf))
        refine ⟨Call.stat buf :: t, ?_⟩
        rw [ht]
        simp only [World.log, List.append_assoc, List.singleton_append]

/-- The loop of fs_exists answers true exactly when one of the slots below n
joins with the name to a path that stat finds. -/
theorem fs_exists_loop_true_iff (s : _fs_state_t) (name : CStr) (n : Nat) (w : World) :
    (fs_exists_loop s name n w).1 = true ↔
      ∃ i, i < n ∧ ∃ buf, _fs_concat_path (s.base_path i) name = some buf ∧
        ∃ nd, lookupNode w.nodes buf = some nd := by
  induction n generalizing w with
  | zero => simp [fs_exists_loop]
  | succ k ih =>
    unfold fs_exists_loop
    cases hc : _fs_concat_path (s.base_path k) name with
    | none =>
      simp only [ih]
      constructor
      · rintro ⟨i, hi, h⟩
        exact ⟨i, Nat.lt_succ_of_lt hi, h⟩
      · rintro ⟨i, hi, buf, hb, h⟩
        rcases Nat.lt_succ_iff_lt_or_eq.mp hi with h1 | h1
        · exact ⟨i, h1, buf, hb, h⟩
        · subst h1; rw [hc] at hb; cases hb
    | some buf =>
      simp only [get_file_info_null]
      cases hl : lookupNode w.nodes buf with
      | some nd =>
        simp only [Option.isSome_some, true_iff]
        exact ⟨k, Nat.lt_succ_self k, buf, hc, nd, hl⟩
      | none =>
        simp only [Option.isSome_none, ih, log_nodes]
        constructor
        · rintro ⟨i, hi, h⟩
          exact ⟨i, Nat.lt_succ_of_lt hi, h⟩
        · rintro ⟨i, hi, b, hb, nd, h⟩
          rcases Nat.lt_succ_iff_lt_or_eq.mp hi with h1 | h1
          · exact ⟨i, h1, b, hb, nd, h⟩
          · subst h1
            rw [hc] at hb
            cases hb
            rw [hl] at h
            cases h

/-- The loop of fs_exists reads the global record through the slots only. -/
theorem fs_exists_loop_congr (s t : _fs_state_t) (hbp : s.base_path = t.base_path)
    (name : CStr) (n : Nat) (w : World) :
    fs_exists_loop s name n w = fs_exists_loop t name n w := by
  induction n generalizing w with
  | zero => rfl
  | succ k ih =>
    unfold fs_exists_loop
    rw [hbp]
    cases _fs_concat_path (t.base_path k) name with
    | none => exact ih w
    | some buf =>
      simp only [get_file_info_null]
      cases (lookupNode w.nodes buf).isSome with
      | true => rfl
      | false => exact ih _

/-- The loop of fs_get_info: same answer and same effect on the operating system
as the loop of fs_exists; on false the record is untouched; on true the record
describes the entry found under the highest slot that resolves. -/
theorem fs_get_info_loop_spec (s : _fs_state_t) (path : CStr) (n : Nat) (w : World)
    (info : fs_info) :
    (fs_get_info_loop s path n w info).1 = (fs_exists_loop s path n w).1 ∧
    (fs_get_info_loop s path n w info).2.2 = (fs_exists_loop s path n w).2 ∧
    ((fs_get_info_loop s path n w info).1 = false →
      (fs_get_info_loop s path n w info).2.1 = info) ∧
    ((fs_get_info_loop s path n w info).1 = true →
      ∃ i buf nd, i < n ∧ _fs_concat_path (s.base_path i) path = some buf ∧
        lookupNode w.nodes buf = some nd ∧
        (∀ j, i < j → j < n → ∀ b, _fs_concat_path (s.base_path j) path = some b →
          lookupNode w.nodes b = none) ∧
        (fs_get_info_loop s path n w info).2.1 =
          ⟨file_type_of nd.mode, nd.content.length, nd.mtime⟩) := by
  induction n generalizing w with
  | zero => simp [fs_get_info_loop, fs_exists_loop]
  | succ k ih =>
    unfold fs_get_info_loop fs_exists_loop
    cases hc : _fs_concat_path (s.base_path k) path with
    | none =>
      obtain ⟨h1, h2, h3, h4⟩ := ih w
      refine ⟨h1, h2, h3, ?_⟩
      intro ht
      obtain ⟨i, buf, nd, hi, hb, hn, hmax, hinfo⟩ := h4 ht
      refine ⟨i, buf, nd, Nat.lt_succ_of_lt hi, hb, hn, ?_, hinfo⟩
      intro j hj1 hj2 b hjb
      rcases Nat.lt_succ_iff_lt_or_eq.mp hj2 with h5 | h5
      · exact hmax j hj1 h5 b hjb
      · subst h5; rw [hc] at hjb; cases hjb
    | some buf =>
      simp only [get_file_info_null, get_file_info_ptr]
      cases hl : lookupNode w.nodes buf with
      | some nd =>
        simp only [Option.isSome_some]
        refine ⟨trivial, trivial, ?_, ?_⟩
        · intro hf; cases hf
        · intro _
          refine ⟨k, buf, nd, Nat.lt_succ_self k, hc, hl, ?_, rfl⟩
          intro j hj1 hj2
          omega
      | none =>
        simp only [Option.isSome_none]
        obtain ⟨h1, h2, h3, h4⟩ := ih (w.log (Call.stat buf))
        refine ⟨h1, h2, h3, ?_⟩
        intro ht
        obtain ⟨i, b, nd, hi, hb, hn, hmax, hinfo⟩ := h4 ht
        refine ⟨i, b, nd, Nat.lt_succ_of_lt hi, hb, hn, ?_, hinfo⟩
        intro j hj1 hj2 b2 hjb
        rcases Nat.lt_succ_iff_lt_or_eq.mp hj2 with h5 | h5
        · exact hmax j hj1 h5 b2 hjb
        · subst h5
          rw [hc] at hjb
          cases hjb
          exact hl

theorem fs_insert_basepath_true_eq (σ : Sys) (path : CStr)
    (h : (fs_insert_basepath σ path).1 = true) :
    (fs_insert_basepath σ path).2 =
      { σ with fs :=
        { σ.fs with base_path := fun j => if j = σ.fs.count then path else σ.fs.base_path j,
                    count := σ.fs.count + 1 } } := by
  unfold fs_insert_basepath at h ⊢
  by_cases hg : path.length ≥ FS_MAX_PATH ∨ σ.fs.count ≥ FS_MAX_MOUNTS
  · simp [hg] at h
  · simp only [hg, if_false] at h ⊢
    cases hf : find_mount σ.fs.base_path path σ.fs.count with
    | some idx => simp [hf] at h
    | none => rfl

/-- Opening and reading a path under which an entry exists delivers its bytes,
provided malloc can deliver as many. -/
theorem open_read_existing (s : _fs_state_t) (w : World) (p : CStr) (nd : Node) (size : Nat)
    (h : lookupNode w.nodes p = some nd) (hheap : nd.content.length ≤ w.heap) :
    (_fs_native_read (_fs_native_open s w p OpenMode._FS_MREAD).2
      (_fs_native_open s w p OpenMode._FS_MREAD).1 size).1 =
      ⟨some nd.content, nd.content.length⟩ := by
  simp [_fs_native_open, get_file_info_null, h, os_fopen, log_nodes, _fs_native_read, os_ftell,
    os_malloc, World.log, hheap, os_fread]

/-- Opening and reading a path under which nothing exists delivers NULL and
leaves the out-parameter alone. -/
theorem open_read_missing (s : _fs_state_t) (w : World) (p : CStr) (size : Nat)
    (h : lookupNode w.nodes p = none) :
    (_fs_native_read (_fs_native_open s w p OpenMode._FS_MREAD).2
      (_fs_native_open s w p OpenMode._FS_MREAD).1 size).1 = ⟨none, size⟩ := by
  simp [_fs_native_open, get_file_info_null, h, _fs_native_read]

/-! ## Lemmas about the mutating operations -/

theorem concat_path_some (dir name buf : CStr) (h : _fs_concat_path dir name = some buf) :
    buf = join_path dir name := by
  unfold _fs_concat_path at h
  split at h
  · cases h
  · exact (Option.some.inj h).symm

theorem native_open_for_writing (s : _fs_state_t) (w : World) (p : CStr) (mode : OpenMode)
    (hm : mode ≠ OpenMode._FS_MREAD) (hwd : _fs_strempty s.write_dir = false) :
    _fs_native_open s w p mode = os_fopen w p mode := by
  cases mode with
  | _FS_MREAD => exact absurd rfl hm
  | _FS_MWRITE => simp [_fs_native_open, hwd]
  | _FS_MAPPEND => simp [_fs_native_open, hwd]

/-- What a call of fs_write or fs_append does to the operating system: entries
under other paths than the join of the write directory with the name stay as
they are, and the calls made are none, or a failed fopen of that path, or
fopen, fwrite and fclose of that path. -/
theorem fs_write_mode_sandbox (mode : OpenMode) (hm : mode ≠ OpenMode._FS_MREAD) (σ : Sys)
    (name : CStr) (data : fs_data) :
    (fs_write_mode mode σ name data).2.fs = σ.fs ∧
    (∀ q, q ≠ join_path σ.fs.write_dir name →
      lookupNode (fs_write_mode mode σ name data).2.os.nodes q = lookupNode σ.os.nodes q) ∧
    ((fs_write_mode mode σ name data).2.os.trace = σ.os.trace ∨
      (fs_write_mode mode σ name data).2.os.trace =
        σ.os.trace ++ [Call.fopen (join_path σ.fs.write_dir name) mode] ∨
      (fs_write_mode mode σ name data).2.os.trace =
        σ.os.trace ++ [Call.fopen (join_path σ.fs.write_dir name) mode,
          Call.fwrite (join_path σ.fs.write_dir name) data.size,
          Call.fclose (join_path σ.fs.write_dir name)]) := by
  unfold fs_write_mode
  cases hwd : _fs_strempty σ.fs.write_dir with
  | true => simp
  | false =>
    simp only [Bool.false_eq_true, if_false]
    cases hc : _fs_concat_path σ.fs.write_dir name with
    | none => simp
    | some buf =>
      have hbuf := concat_path_some _ _ _ hc
      subst hbuf
      simp only [native_open_for_writing σ.fs σ.os _ mode hm hwd]
      cases hfp : (os_fopen σ.os (join_path σ.fs.write_dir name) mode).1 with
      | none =>
        refine ⟨trivial, ?_, Or.inr (Or.inl ?_)⟩
        · intro q hq
          simp only [_fs_native_write, hfp]
          exact os_fopen_nodes_ne _ _ _ _ hq
        · simp only [_fs_native_write, hfp]
          exact os_fopen_trace _ _ _
      | some f =>
        have hf := os_fopen_handle _ _ _ _ hfp
        refine ⟨trivial, ?_, Or.inr (Or.inr ?_)⟩
        · intro q hq
          simp only [_fs_native_write, hfp, os_fclose_nodes]
          rw [os_fwrite_nodes_ne _ _ _ _ (by rw [hf]; exact hq)]
          exact os_fopen_nodes_ne _ _ _ _ hq
        · simp only [_fs_native_write, hfp, os_fclose_trace, os_fwrite_trace, os_fopen_trace,
            hf, List.append_assoc, List.singleton_append, fs_data.size,
            List.cons_append, List.nil_append]

theorem concat_path_none_of_long (dir name : CStr)
    (h : FS_MAX_PATH < dir.length + name.length + 2) : _fs_concat_path dir name = none := by
  unfold _fs_concat_path
  simp [h]

theorem join_path_length_le (dir name : CStr) :
    (join_path dir name).length ≤ dir.length + name.length + 1 := by
  unfold join_path
  split
  · simp
  · simp
    omega

theorem concat_path_length (dir name buf : CStr) (h : _fs_concat_path dir name = some buf) :
    buf.length + 1 ≤ FS_MAX_PATH := by
  have hb := concat_path_some _ _ _ h
  unfold _fs_concat_path at h
  by_cases hlen : dir.length + name.length + 2 > FS_MAX_PATH
  · simp [hlen] at h
  · have := join_path_length_le dir name
    rw [hb]
    omega

/-- Every call the loop of fs_exists adds is a stat of the join of one of the
slots below n with the name. -/
theorem fs_exists_loop_calls (s : _fs_state_t) (name : CStr) (n : Nat) (w : World) (c : Call)
    (hc : c ∈ (fs_exists_loop s name n w).2.trace) :
    c ∈ w.trace ∨ ∃ j buf, j < n ∧ _fs_concat_path (s.base_path j) name = some buf ∧
      c = Call.stat buf := by
  induction n generalizing w with
  | zero => exact Or.inl hc
  | succ k ih =>
    unfold fs_exists_loop at hc
    cases hcp : _fs_concat_path (s.base_path k) name with
    | none =>
      simp only [hcp] at hc
      rcases ih w hc with h | ⟨j, buf, hj, hb, he⟩
      · exact Or.inl h
      · exact Or.inr ⟨j, buf, Nat.lt_succ_of_lt hj, hb, he⟩
    | some buf =>
      simp only [hcp, get_file_info_null] at hc
      cases hl : (lookupNode w.nodes buf).isSome with
      | true =>
        simp only [hl, World.log, List.mem_append, List.mem_singleton] at hc
        rcases hc with h | h
        · exact Or.inl h
        · exact Or.inr ⟨k, buf, Nat.lt_succ_self k, hcp, h⟩
      | false =>
        simp only [hl] at hc
        rcases ih _ hc with h | ⟨j, b, hj, hb, he⟩
        · simp only [World.log, List.mem_append, List.mem_singleton] at h
          rcases h with h | h
          · exact Or.inl h
          · exact Or.inr ⟨k, buf, Nat.lt_succ_self k, hcp, h⟩
        · exact Or.inr ⟨j, b, Nat.lt_succ_of_lt hj, hb, he⟩

/-- Every call made by opening a path for reading and reading it carries that
path or no path. -/
theorem open_read_calls (s : _fs_state_t) (w : World) (buf : CStr) (size : Nat) (c : Call)
    (hc : c ∈ (_fs_native_read (_fs_native_open s w buf OpenMode._FS_MREAD).2
      (_fs_native_open s w buf OpenMode._FS_MREAD).1 size).2.trace) :
    c ∈ w.trace ∨ c.path = none ∨ c.path = some buf := by
  simp only [_fs_native_open, get_file_info_null] at hc
  cases hl : lookupNode w.nodes buf with
  | none =>
    simp only [hl, Option.isSome_none, _fs_native_read, World.log, List.mem_append,
      List.mem_singleton] at hc
    rcases hc with h | h
    · exact Or.inl h
    · exact Or.inr (Or.inr (by rw [h]; rfl))
  | some nd =>
    simp only [hl, Option.isSome_some, os_fopen, log_nodes, _fs_native_read, os_ftell,
      os_malloc, World.log] at hc
    by_cases hh : nd.content.length ≤ w.heap
    · simp only [hh, if_true, os_fread, os_fclose, World.log, List.mem_append,
        List.mem_singleton] at hc
      rcases hc with (((((h | h) | h) | h) | h) | h) | h
      · exact Or.inl h
      all_goals first
        | exact Or.inr (Or.inr (by rw [h]; rfl))
        | exact Or.inr (Or.inl (by rw [h]; rfl))
    · simp only [hh, if_false, List.mem_append, List.mem_singleton] at hc
      rcases hc with (((h | h) | h) | h) | h
      · exact Or.inl h
      all_goals first
        | exact Or.inr (Or.inr (by rw [h]; rfl))
        | exact Or.inr (Or.inl (by rw [h]; rfl))

/-- Every call the loop of fs_read adds carries no path or the join of one of
the slots below n with the name. -/
theorem fs_read_loop_calls (s : _fs_state_t) (name : CStr) (size : Nat) (n : Nat) (w : World)
    (c : Call) (hc : c ∈ (fs_read_loop s name size n w).2.trace) :
    c ∈ w.trace ∨ c.path = none ∨
      ∃ j buf, j < n ∧ _fs_concat_path (s.base_path j) name = some buf ∧ c.path = some buf := by
  induction n generalizing w with
  | zero => exact Or.inl hc
  | succ k ih =>
    unfold fs_read_loop at hc
    cases hcp : _fs_concat_path (s.base_path k) name with
    | none =>
      simp only [hcp] at hc
      rcases ih w hc with h | h | ⟨j, buf, hj, hb, he⟩
      · exact Or.inl h
      · exact Or.inr (Or.inl h)
      · exact Or.inr (Or.inr ⟨j, buf, Nat.lt_succ_of_lt hj, hb, he⟩)
    | some buf =>
      simp only [hcp] at hc
      rcases open_read_calls s w buf size c hc with h | h | h
      · exact Or.inl h
      · exact Or.inr (Or.inl h)
      · exact Or.inr (Or.inr ⟨k, buf, Nat.lt_succ_self k, hcp, h⟩)

theorem concat_path_none_iff (dir name : CStr) :
    _fs_concat_path dir name = none ↔ FS_MAX_PATH < dir.length + name.length + 2 := by
  unfold _fs_concat_path
  by_cases h : dir.length + name.length + 2 > FS_MAX_PATH
  · simp [h]
  · simp only [h, if_false]
    constructor
    · intro hc; cases hc
    · intro hc; exact hc.elim

theorem concat_path_of_fits (dir name : CStr) (h : dir.length + name.length + 2 ≤ FS_MAX_PATH) :
    _fs_concat_path dir name = some (join_path dir name) := by
  unfold _fs_concat_path
  have : ¬ (dir.length + name.length + 2 > FS_MAX_PATH) := by omega
  simp only [this, if_false]

/-- The loop of fs_exists keeps the calls already made. -/
theorem fs_exists_loop_keeps (s : _fs_state_t) (name : CStr) (n : Nat) (w : World) (c : Call)
    (hc : c ∈ w.trace) : c ∈ (fs_exists_loop s name n w).2.trace := by
  obtain ⟨t, ht⟩ := fs_exists_loop_frame s name n w
  rw [ht]
  exact List.mem_append_left t hc

/-- When the loop of fs_exists starts above a slot i whose join succeeds and no
slot in between resolves the name, the join of slot i is passed to stat. -/
theorem fs_exists_loop_reaches (s : _fs_state_t) (name : CStr) (i : Nat) (buf : CStr)
    (hb : _fs_concat_path (s.base_path i) name = some buf) (n : Nat) (w : World) (hi : i < n)
    (hfree : ∀ j, i < j → j < n → ∀ b, _fs_concat_path (s.base_path j) name = some b →
      lookupNode w.nodes b = none) :
    Call.stat buf ∈ (fs_exists_loop s name n w).2.trace := by
  induction n generalizing w with
  | zero => omega
  | succ k ih =>
    unfold fs_exists_loop
    by_cases hk : i = k
    · subst hk
      simp only [hb, get_file_info_null]
      cases hl : (lookupNode w.nodes buf).isSome with
      | true => simp [World.log]
      | false =>
        apply fs_exists_loop_keeps
        simp [World.log]
    · have hik : i < k := by omega
      cases hcp : _fs_concat_path (s.base_path k) name with
      | none =>
        exact ih w hik (fun j h1 h2 b hjb => hfree j h1 (Nat.lt_succ_of_lt h2) b hjb)
      | some b =>
        have hnone := hfree k hik (Nat.lt_succ_self k) b hcp
        simp only [get_file_info_null, hnone, Option.isSome_none]
        exact ih _ hik (fun j h1 h2 b2 hjb => by
          rw [log_nodes]
          exact hfree j h1 (Nat.lt_succ_of_lt h2) b2 hjb)

/-! ## Lemmas about written content -/

/-- After a successful fopen for writing or appending the path holds an entry:
a fresh empty regular file if there was none, the old entry otherwise, emptied
in write mode. Heap, room and clock are as before. -/
theorem os_fopen_for_writing_some (w : World) (p : CStr) (m : OpenMode) (f : FILE)
    (hm : m ≠ OpenMode._FS_MREAD) (h : (os_fopen w p m).1 = some f) :
    f = ⟨p, m⟩ ∧
    (os_fopen w p m).2.heap = w.heap ∧ (os_fopen w p m).2.room = w.room ∧
    (os_fopen w p m).2.now = w.now ∧
    (os_fopen w p m).2.handles = ⟨p, m⟩ :: w.handles ∧
    ((lookupNode w.nodes p = none ∧
        lookupNode (os_fopen w p m).2.nodes p = some ⟨st_mode.S_IFREG, [], w.now⟩) ∨
      (∃ nd, lookupNode w.nodes p = some nd ∧ nd.mode ≠ st_mode.S_IFDIR ∧
        ((m = OpenMode._FS_MWRITE ∧
            lookupNode (os_fopen w p m).2.nodes p = some ⟨nd.mode, [], w.now⟩) ∨
          (m = OpenMode._FS_MAPPEND ∧ lookupNode (os_fopen w p m).2.nodes p = some nd)))) := by
  have hf := os_fopen_handle w p m f h
  refine ⟨hf, ?_⟩
  cases m with
  | _FS_MREAD => exact absurd rfl hm
  | _FS_MWRITE =>
    unfold os_fopen at h ⊢
    simp only [] at h ⊢
    cases hl : lookupNode w.nodes p with
    | none =>
      simp only [hl] at h ⊢
      by_cases hp : parentOk w.nodes p = true
      · simp only [hp, if_true, World.log]
        exact ⟨trivial, trivial, trivial, trivial, Or.inl ⟨trivial, lookupNode_setNode_self _ _ _⟩⟩
      · simp [hp] at h
    | some nd =>
      simp only [hl] at h ⊢
      by_cases hd : nd.mode = st_mode.S_IFDIR
      · simp [hd] at h
      · simp only [hd, if_false, World.log]
        exact ⟨trivial, trivial, trivial, trivial,
          Or.inr ⟨nd, rfl, hd, Or.inl ⟨trivial, lookupNode_setNode_self _ _ _⟩⟩⟩
  | _FS_MAPPEND =>
    unfold os_fopen at h ⊢
    simp only [] at h ⊢
    cases hl : lookupNode w.nodes p with
    | none =>
      simp only [hl] at h ⊢
      by_cases hp : parentOk w.nodes p = true
      · simp only [hp, if_true, World.log]
        exact ⟨trivial, trivial, trivial, trivial, Or.inl ⟨trivial, lookupNode_setNode_self _ _ _⟩⟩
      · simp [hp] at h
    | some nd =>
      simp only [hl] at h ⊢
      by_cases hd : nd.mode = st_mode.S_IFDIR
      · simp [hd] at h
      · simp only [hd, if_false, World.log]
        exact ⟨trivial, trivial, trivial, trivial,
          Or.inr ⟨nd, rfl, hd, Or.inr ⟨trivial, hl⟩⟩⟩

/-- Writing through a stream that is not open for reading, when the call
reports all bytes written, appends exactly the bytes to the entry. -/
theorem native_write_true (w : World) (f : FILE) (data : fs_data) (nd : Node)
    (hm : f.mode ≠ OpenMode._FS_MREAD) (hl : lookupNode w.nodes f.path = some nd)
    (h : (_fs_native_write w (some f) data).1 = true) :
    lookupNode (_fs_native_write w (some f) data).2.nodes f.path =
      some ⟨nd.mode, nd.content ++ data.data, w.now⟩ ∧
    (_fs_native_write w (some f) data).2.heap = w.heap ∧
    (_fs_native_write w (some f) data).2.handles = w.handles.erase f := by
  unfold _fs_native_write at h ⊢
  simp only [os_fwrite, hm, if_false, hl, fs_data.size, beq_iff_eq] at h ⊢
  have hk : min data.data.length w.room = data.data.length := h
  simp only [hk, List.take_length, os_fclose, World.log]
  exact ⟨lookupNode_setNode_self _ _ _, trivial, trivial⟩

/-- A successful fs_write or fs_append leaves under the join of the write
directory with the name: the bytes alone on a fresh regular file when nothing
was there; otherwise the old entry with the bytes after its emptied (write) or
kept (append) content. Heap and open streams are as before. -/
theorem fs_write_mode_success (mode : OpenMode) (hm : mode ≠ OpenMode._FS_MREAD) (σ : Sys)
    (name : CStr) (data : fs_data) (h : (fs_write_mode mode σ name data).1 = true) :
    _fs_strempty σ.fs.write_dir = false ∧
    _fs_concat_path σ.fs.write_dir name = some (join_path σ.fs.write_dir name) ∧
    (fs_write_mode mode σ name data).2.os.heap = σ.os.heap ∧
    (fs_write_mode mode σ name data).2.os.handles = σ.os.handles ∧
    ((lookupNode σ.os.nodes (join_path σ.fs.write_dir name) = none ∧
        lookupNode (fs_write_mode mode σ name data).2.os.nodes (join_path σ.fs.write_dir name) =
          some ⟨st_mode.S_IFREG, data.data, σ.os.now⟩) ∨
      (∃ nd, lookupNode σ.os.nodes (join_path σ.fs.write_dir name) = some nd ∧
        nd.mode ≠ st_mode.S_IFDIR ∧
        ((mode = OpenMode._FS_MWRITE ∧
            lookupNode (fs_write_mode mode σ name data).2.os.nodes
              (join_path σ.fs.write_dir name) = some ⟨nd.mode, data.data, σ.os.now⟩) ∨
          (mode = OpenMode._FS_MAPPEND ∧
            lookupNode (fs_write_mode mode σ name data).2.os.nodes
              (join_path σ.fs.write_dir name) =
                some ⟨nd.mode, nd.content ++ data.data, σ.os.now⟩)))) := by
  unfold fs_write_mode at h ⊢
  cases hwd : _fs_strempty σ.fs.write_dir with
  | true => simp [hwd] at h
  | false =>
    simp only [hwd, Bool.false_eq_true, if_false] at h ⊢
    cases hc : _fs_concat_path σ.fs.write_dir name with
    | none => simp [hc] at h
    | some buf =>
      have hbuf := concat_path_some _ _ _ hc
      subst hbuf
      simp only [hc, native_open_for_writing σ.fs σ.os _ mode hm hwd] at h ⊢
      cases hfp : (os_fopen σ.os (join_path σ.fs.write_dir name) mode).1 with
      | none => simp [hfp, _fs_native_write] at h
      | some f =>
        simp only [hfp] at h ⊢
        obtain ⟨hf, hheap, _, hnow, hhandles, hcases⟩ :=
          os_fopen_for_writing_some σ.os _ mode f hm hfp
        subst hf
        have hclosed : ((os_fopen σ.os (join_path σ.fs.write_dir name) mode).2.handles).erase
            ⟨join_path σ.fs.write_dir name, mode⟩ = σ.os.handles := by
          rw [hhandles]
          simp
        have hw : ∀ nd0, lookupNode (os_fopen σ.os (join_path σ.fs.write_dir name) mode).2.nodes
            (join_path σ.fs.write_dir name) = some nd0 →
            lookupNode (_fs_native_write (os_fopen σ.os (join_path σ.fs.write_dir name) mode).2
              (some ⟨join_path σ.fs.write_dir name, mode⟩) data).2.nodes
              (join_path σ.fs.write_dir name) =
              some ⟨nd0.mode, nd0.content ++ data.data, σ.os.now⟩ ∧
            (_fs_native_write (os_fopen σ.os (join_path σ.fs.write_dir name) mode).2
              (some ⟨join_path σ.fs.write_dir name, mode⟩) data).2.heap = σ.os.heap ∧
            (_fs_native_write (os_fopen σ.os (join_path σ.fs.write_dir name) mode).2
              (some ⟨join_path σ.fs.write_dir name, mode⟩) data).2.handles = σ.os.handles := by
          intro nd0 hl
          have := native_write_true _ ⟨join_path σ.fs.write_dir name, mode⟩ data nd0 hm hl h
          rw [hnow, hheap, hclosed] at this
          exact this
        refine ⟨trivial, trivial, ?_, ?_, ?_⟩
        · rcases hcases with ⟨_, hl⟩ | ⟨nd, _, _, ⟨_, hl⟩ | ⟨_, hl⟩⟩ <;>
            exact (hw _ hl).2.1
        · rcases hcases with ⟨_, hl⟩ | ⟨nd, _, _, ⟨_, hl⟩ | ⟨_, hl⟩⟩ <;>
            exact (hw _ hl).2.2
        · rcases hcases with ⟨h0, hl⟩ | ⟨nd, h0, hd, ⟨hmode, hl⟩ | ⟨hmode, hl⟩⟩
          · left
            refine ⟨h0, ?_⟩
            simpa using (hw _ hl).1
          · right
            refine ⟨nd, h0, hd, Or.inl ⟨hmode, ?_⟩⟩
            simpa using (hw _ hl).1
          · right
            exact ⟨nd, h0, hd, Or.inr ⟨hmode, (hw _ hl).1⟩⟩

/-! ## Lemmas about open streams and read buffers -/

theorem os_fopen_none_handles (w : World) (p : CStr) (m : OpenMode)
    (h : (os_fopen w p m).1 = none) : (os_fopen w p m).2.handles = w.handles := by
  unfold os_fopen at h ⊢
  cases m <;> simp only [] at h ⊢ <;> split at h <;> (try split at h) <;>
    simp_all [World.log]

theorem os_fopen_some_handles (w : World) (p : CStr) (m : OpenMode) (f : FILE)
    (h : (os_fopen w p m).1 = some f) : (os_fopen w p m).2.handles = ⟨p, m⟩ :: w.handles := by
  unfold os_fopen at h ⊢
  cases m <;> simp only [] at h ⊢ <;> split at h <;> (try split at h) <;>
    simp_all [World.log]

/-- fs_write and fs_append leave the open streams as they were. -/
theorem fs_write_mode_handles (mode : OpenMode) (hm : mode ≠ OpenMode._FS_MREAD) (σ : Sys)
    (name : CStr) (data : fs_data) :
    (fs_write_mode mode σ name data).2.os.handles = σ.os.handles := by
  unfold fs_write_mode
  cases hwd : _fs_strempty σ.fs.write_dir with
  | true => simp
  | false =>
    simp only [Bool.false_eq_true, if_false]
    cases hc : _fs_concat_path σ.fs.write_dir name with
    | none => simp
    | some buf =>
      simp only [native_open_for_writing σ.fs σ.os buf mode hm hwd]
      cases hfp : (os_fopen σ.os buf mode).1 with
      | none =>
        simp only [_fs_native_write]
        exact os_fopen_none_handles _ _ _ hfp
      | some f =>
        have hf := os_fopen_handle _ _ _ _ hfp
        simp only [_fs_native_write, os_fwrite, os_fclose, World.log,
          os_fopen_some_handles _ _ _ _ hfp, hf]
        simp

/-- Opening and reading one path: the stream stays open exactly when the entry
exists and malloc fails, and then the result is NULL; a returned buffer has
exactly as many bytes as the size reports. -/
theorem open_read_handles (s : _fs_state_t) (w : World) (buf : CStr) (size : Nat) :
    ((_fs_native_read (_fs_native_open s w buf OpenMode._FS_MREAD).2
        (_fs_native_open s w buf OpenMode._FS_MREAD).1 size).2.handles = w.handles ∨
      ((_fs_native_read (_fs_native_open s w buf OpenMode._FS_MREAD).2
          (_fs_native_open s w buf OpenMode._FS_MREAD).1 size).1.ptr = none ∧
        (∃ nd, lookupNode w.nodes buf = some nd ∧ w.heap < nd.content.length) ∧
        (_fs_native_read (_fs_native_open s w buf OpenMode._FS_MREAD).2
          (_fs_native_open s w buf OpenMode._FS_MREAD).1 size).2.handles =
          ⟨buf, OpenMode._FS_MREAD⟩ :: w.handles)) ∧
    (∀ bytes, (_fs_native_read (_fs_native_open s w buf OpenMode._FS_MREAD).2
        (_fs_native_open s w buf OpenMode._FS_MREAD).1 size).1.ptr = some bytes →
      bytes.length = (_fs_native_read (_fs_native_open s w buf OpenMode._FS_MREAD).2
        (_fs_native_open s w buf OpenMode._FS_MREAD).1 size).1.size) := by
  simp only [_fs_native_open, get_file_info_null]
  cases hl : lookupNode w.nodes buf with
  | none => simp [_fs_native_read, World.log]
  | some nd =>
    simp only [Option.isSome_some, os_fopen, log_nodes, hl, _fs_native_read, os_ftell,
      os_malloc, World.log]
    by_cases hh : nd.content.length ≤ w.heap
    · simp [hh, os_fread, os_fclose, World.log, hl]
    · simp [hh]
      omega

/-- The loop of fs_read: the open streams are as before unless an entry was
found and malloc failed, in which case NULL is returned and the stream of that
entry stays open; a returned buffer has exactly size bytes. -/
theorem fs_read_loop_handles (s : _fs_state_t) (name : CStr) (size : Nat) (n : Nat) (w : World) :
    ((fs_read_loop s name size n w).2.handles = w.handles ∨
      ((fs_read_loop s name size n w).1.ptr = none ∧
        ∃ buf nd, lookupNode w.nodes buf = some nd ∧ w.heap < nd.content.length ∧
          (fs_read_loop s name size n w).2.handles = ⟨buf, OpenMode._FS_MREAD⟩ :: w.handles)) ∧
    (∀ bytes, (fs_read_loop s name size n w).1.ptr = some bytes →
      bytes.length = (fs_read_loop s name size n w).1.size) := by
  induction n with
  | zero =>
    refine ⟨Or.inl rfl, ?_⟩
    intro bytes h
    simp [fs_read_loop] at h
  | succ k ih =>
    unfold fs_read_loop
    cases hc : _fs_concat_path (s.base_path k) name with
    | none => exact ih
    | some buf =>
      simp only []
      obtain ⟨h1, h2⟩ := open_read_handles s w buf size
      refine ⟨?_, h2⟩
      rcases h1 with h1 | ⟨hp, ⟨nd, hn, hh⟩, hl⟩
      · exact Or.inl h1
      · exact Or.inr ⟨hp, buf, nd, hn, hh, hl⟩

/-! ## Lemmas about directory creation -/

theorem loop_cuts_nil (done : CStr) : loop_cuts done [] = [] := rfl

theorem loop_cuts_cons (done : CStr) (c : Char) (r : CStr) :
    loop_cuts done (c :: r) =
      (if c = '/' then [done] else []) ++ loop_cuts (done ++ [c]) r := by
  unfold loop_cuts
  rw [List.length_cons, List.range_succ_eq_map, List.filter_cons, List.filter_map]
  have hfun : (fun k => (c :: r).get? k == some '/') ∘ Nat.succ = fun k => r.get? k == some '/' := by
    funext k
    simp
  have hmap : (fun k => done ++ List.take k (c :: r)) ∘ Nat.succ =
      fun k => (done ++ [c]) ++ List.take k r := by
    funext k
    simp
  rw [hfun]
  by_cases hc : c = '/'
  · subst hc
    simp only [List.get?_cons_zero, beq_self_eq_true, if_true, List.map_cons, List.take_zero,
      List.append_nil, List.map_map, hmap, List.singleton_append]
  · have : ((c :: r).get? 0 == some '/') = false := by
      simp [hc]
    simp only [this, hc, if_false, List.map_map, hmap, List.nil_append, Bool.false_eq_true]

theorem spec_mkdir_chain_append (ps qs : List CStr) (w : World) :
    spec_mkdir_chain (ps ++ qs) w =
      match spec_mkdir_chain ps w with
      | (false, w1) => (false, w1)
      | (true, w1) => spec_mkdir_chain qs w1 := by
  induction ps generalizing w with
  | nil => rfl
  | cons p ps ih =>
    simp only [List.cons_append, spec_mkdir_chain]
    cases hm : os_mkdir w p with
    | mk r w1 =>
      cases r with
      | efail => rfl
      | ok => exact ih w1
      | eexist => exact ih w1

/-- The loop of _fs_native_mkdir makes the chain of its cuts. -/
theorem native_mkdir_loop_eq_chain (done rest : CStr) (w : World) :
    _fs_native_mkdir_loop done rest w = spec_mkdir_chain (loop_cuts done rest) w := by
  induction rest generalizing done w with
  | nil => rfl
  | cons c r ih =>
    rw [loop_cuts_cons]
    unfold _fs_native_mkdir_loop
    by_cases hc : c = '/'
    · simp only [hc, if_true, List.singleton_append, spec_mkdir_chain]
      cases hm : os_mkdir w done with
      | mk res w1 =>
        cases res with
        | efail => rfl
        | ok => exact ih _ w1
        | eexist => exact ih _ w1
    · simp only [hc, if_false, List.nil_append]
      exact ih _ w

/-- For a non-empty path the cuts of the loop, started behind the first byte,
are the prefixes named by the specification. -/
theorem loop_cuts_eq_spec (c : Char) (r : CStr) :
    loop_cuts [c] r ++ [c :: r] = spec_mkdir_attempts (c :: r) := by
  unfold loop_cuts spec_mkdir_attempts
  rw [List.length_cons, List.range_succ_eq_map, List.filter_cons, List.filter_map]
  have hfun : (fun i => decide (1 ≤ i) && ((c :: r).get? i == some '/')) ∘ Nat.succ =
      fun k => r.get? k == some '/' := by
    funext k
    simp
  have hmap : (fun i => List.take i (c :: r)) ∘ Nat.succ = fun k => [c] ++ List.take k r := by
    funext k
    simp
  rw [hfun]
  simp [List.map_map, hmap]

/-- The source function makes the chain of attempts named by the specification. -/
theorem native_mkdir_eq_chain (w : World) (path : CStr) (hne : path ≠ [])
    (hlen : path.length ≤ FS_MAX_PATH - 1) :
    _fs_native_mkdir w path = spec_mkdir_chain (spec_mkdir_attempts path) w := by
  cases path with
  | nil => exact absurd rfl hne
  | cons c r =>
    rw [← loop_cuts_eq_spec, spec_mkdir_chain_append, ← native_mkdir_loop_eq_chain]
    unfold _fs_native_mkdir
    have : ¬ ((c :: r).length > FS_MAX_PATH - 1) := by omega
    simp only [this, if_false, List.take_succ_cons, List.take_zero, List.drop_succ_cons,
      List.drop_zero]
    cases hl : _fs_native_mkdir_loop [c] r w with
    | mk res w1 =>
      cases res with
      | false => rfl
      | true =>
        simp only [spec_mkdir_chain]

/-- The calls of a chain: the attempts up to and including the one that ends
it, all of them when the result is true. -/
theorem spec_mkdir_chain_trace (ps : List CStr) (w : World) :
    ∃ k, k ≤ ps.length ∧
      (spec_mkdir_chain ps w).2.trace = w.trace ++ (ps.take k).map Call.mkdir ∧
      ((spec_mkdir_chain ps w).1 = true → k = ps.length) ∧
      ((spec_mkdir_chain ps w).1 = false → 0 < k) := by
  induction ps generalizing w with
  | nil => exact ⟨0, Nat.le_refl _, by simp [spec_mkdir_chain], fun _ => rfl, by simp [spec_mkdir_chain]⟩
  | cons p ps ih =>
    have htr : (os_mkdir w p).2.trace = w.trace ++ [Call.mkdir p] := by
      unfold os_mkdir
      simp only []
      split
      · rfl
      · split <;> rfl
    unfold spec_mkdir_chain
    cases hm : os_mkdir w p with
    | mk res w1 =>
      rw [hm] at htr
      simp only [] at htr
      cases res with
      | efail =>
        refine ⟨1, by simp, ?_, by simp, by simp⟩
        simp [htr]
      | ok =>
        obtain ⟨k, hk, ht, h1, h2⟩ := ih w1
        refine ⟨k + 1, by simp; omega, ?_, ?_, by simp⟩
        · simp only [ht, htr, List.take_succ_cons, List.map_cons, List.append_assoc,
            List.singleton_append]
        · intro h
          simp only [List.length_cons]
          rw [h1 h]
      | eexist =>
        obtain ⟨k, hk, ht, h1, h2⟩ := ih w1
        refine ⟨k + 1, by simp; omega, ?_, ?_, by simp⟩
        · simp only [ht, htr, List.take_succ_cons, List.map_cons, List.append_assoc,
            List.singleton_append]
        · intro h
          simp only [List.length_cons]
          rw [h1 h]

/-- The attempts named by the specification grow in length. -/
theorem spec_mkdir_attempts_increasing (path : CStr) :
    (spec_mkdir_attempts path).Pairwise (fun a b => a.length < b.length) := by
  unfold spec_mkdir_attempts
  rw [List.pairwise_append]
  refine ⟨?_, List.pairwise_singleton _ _, ?_⟩
  · rw [List.pairwise_map]
    have hr : List.Pairwise (fun a b => a < b) (List.range path.length) := List.pairwise_lt_range _
    have hf := hr.filter (fun i => decide (1 ≤ i) && (path.get? i == some '/'))
    refine hf.imp_of_mem ?_
    intro a b ha hb hab
    have ha2 : a < path.length := List.mem_range.mp (List.mem_of_mem_filter ha)
    have hb2 : b < path.length := List.mem_range.mp (List.mem_of_mem_filter hb)
    simp only [List.length_take]
    omega
  · intro a ha b hb
    simp only [List.mem_map, List.mem_filter, List.mem_range] at ha
    obtain ⟨i, ⟨hi, _⟩, rfl⟩ := ha
    simp only [List.mem_singleton] at hb
    subst hb
    simp only [List.length_take]
    omega

/-- What fs_mkdir does once the write directory is set and the join fits: the
chain of the specification on the attempts for the joined path. -/
theorem fs_mkdir_eq_chain (σ : Sys) (path : CStr) (hwd : _fs_strempty σ.fs.write_dir = false)
    (hc : _fs_concat_path σ.fs.write_dir path = some (join_path σ.fs.write_dir path)) :
    (fs_mkdir σ path).1 =
      (spec_mkdir_chain (spec_mkdir_attempts (join_path σ.fs.write_dir path)) σ.os).1 ∧
    (fs_mkdir σ path).2.os =
      (spec_mkdir_chain (spec_mkdir_attempts (join_path σ.fs.write_dir path)) σ.os).2 := by
  have hne : join_path σ.fs.write_dir path ≠ [] := by
    unfold join_path
    cases hw : σ.fs.write_dir with
    | nil => rw [hw] at hwd; cases hwd
    | cons c r => split <;> simp
  have hlen := concat_path_length _ _ _ hc
  have heq := native_mkdir_eq_chain σ.os _ hne (by omega)
  unfold fs_mkdir
  simp only [hwd, Bool.false_eq_true, if_false, hc, heq, and_self]

theorem os_mkdir_now (w : World) (p : CStr) : (os_mkdir w p).2.now = w.now := by
  unfold os_mkdir
  simp only []
  split
  · rfl
  · split <;> rfl

/-- One mkdir leaves every entry as it is, except that it may put a directory
where nothing was. -/
theorem os_mkdir_lookup (w : World) (p q : CStr) :
    lookupNode (os_mkdir w p).2.nodes q = lookupNode w.nodes q ∨
      (lookupNode w.nodes q = none ∧
        lookupNode (os_mkdir w p).2.nodes q = some ⟨st_mode.S_IFDIR, [], w.now⟩) := by
  unfold os_mkdir
  simp only []
  cases hl : lookupNode w.nodes p with
  | some nd => exact Or.inl rfl
  | none =>
    simp only []
    by_cases hp : parentOk w.nodes p = true
    · simp only [hp, if_true, World.log]
      by_cases hq : q = p
      · subst hq
        exact Or.inr ⟨hl, lookupNode_setNode_self _ _ _⟩
      · exact Or.inl (lookupNode_setNode_ne _ _ _ _ hq)
    · simp only [hp, if_false]
      exact Or.inl rfl

theorem spec_mkdir_chain_now (ps : List CStr) (w : World) :
    (spec_mkdir_chain ps w).2.now = w.now := by
  induction ps generalizing w with
  | nil => rfl
  | cons p ps ih =>
    unfold spec_mkdir_chain
    have h := os_mkdir_now w p
    cases hm : os_mkdir w p with
    | mk res w1 =>
      rw [hm] at h
      cases res with
      | efail => exact h
      | ok => simp only []; rw [ih w1]; exact h
      | eexist => simp only []; rw [ih w1]; exact h

/-- A chain of mkdir calls leaves every entry as it is, except that it may put
a directory where nothing was. -/
theorem spec_mkdir_chain_lookup (ps : List CStr) (w : World) (q : CStr) :
    lookupNode (spec_mkdir_chain ps w).2.nodes q = lookupNode w.nodes q ∨
      (lookupNode w.nodes q = none ∧
        lookupNode (spec_mkdir_chain ps w).2.nodes q = some ⟨st_mode.S_IFDIR, [], w.now⟩) := by
  induction ps generalizing w with
  | nil => exact Or.inl rfl
  | cons p ps ih =>
    unfold spec_mkdir_chain
    have h := os_mkdir_lookup w p q
    have hn := os_mkdir_now w p
    cases hm : os_mkdir w p with
    | mk res w1 =>
      rw [hm] at h hn
      simp only [] at h hn
      have step : lookupNode (spec_mkdir_chain ps w1).2.nodes q = lookupNode w.nodes q ∨
          (lookupNode w.nodes q = none ∧
            lookupNode (spec_mkdir_chain ps w1).2.nodes q =
              some ⟨st_mode.S_IFDIR, [], w.now⟩) := by
        rcases ih w1 with h1 | ⟨h1, h2⟩
        · rw [h1]
          exact h
        · rcases h with h3 | ⟨h3, h4⟩
          · rw [h3] at h1
            rw [hn] at h2
            exact Or.inr ⟨h1, h2⟩
          · rw [h4] at h1
            cases h1
      cases res with
      | efail => exact h
      | ok => exact step
      | eexist => exact step

/-- A chain that returns true leaves an entry under its last attempt. -/
theorem spec_mkdir_chain_last (ps : List CStr) (p : CStr) (w : World)
    (h : (spec_mkdir_chain (ps ++ [p]) w).1 = true) :
    ∃ nd, lookupNode (spec_mkdir_chain (ps ++ [p]) w).2.nodes p = some nd := by
  rw [spec_mkdir_chain_append] at h ⊢
  cases hc : spec_mkdir_chain ps w with
  | mk res w1 =>
    rw [hc] at h
    cases res with
    | false => simp at h
    | true =>
      simp only [spec_mkdir_chain] at h ⊢
      unfold os_mkdir at h ⊢
      simp only [] at h ⊢
      cases hl : lookupNode w1.nodes p with
      | some nd =>
        simp only []
        exact ⟨nd, hl⟩
      | none =>
        simp only [hl] at h ⊢
        by_cases hp : parentOk w1.nodes p = true
        · simp only [hp, if_true, World.log]
          exact ⟨_, lookupNode_setNode_self _ _ _⟩
        · simp [hp] at h

/-! ## Lemmas about the validity flag -/

/-- The loop of fs_read reads the global record through the slots only. -/
theorem fs_read_loop_congr (s t : _fs_state_t) (hbp : s.base_path = t.base_path)
    (name : CStr) (size : Nat) (n : Nat) (w : World) :
    fs_read_loop s name size n w = fs_read_loop t name size n w := by
  induction n with
  | zero => rfl
  | succ k ih =>
    unfold fs_read_loop
    rw [hbp]
    cases _fs_concat_path (t.base_path k) name with
    | none => exact ih
    | some buf => simp only [_fs_native_open]

/-- The loop of fs_get_info reads the global record through the slots only. -/
theorem fs_get_info_loop_congr (s t : _fs_state_t) (hbp : s.base_path = t.base_path)
    (path : CStr) (n : Nat) (w : World) (info : fs_info) :
    fs_get_info_loop s path n w info = fs_get_info_loop t path n w info := by
  induction n generalizing w with
  | zero => rfl
  | succ k ih =>
    unfold fs_get_info_loop
    rw [hbp]
    cases _fs_concat_path (t.base_path k) path with
    | none => exact ih w
    | some buf =>
      simp only [get_file_info_ptr]
      cases lookupNode w.nodes buf with
      | none => exact ih _
      | some nd => rfl

/-- fs_write and fs_append with the validity flag set to any value. -/
theorem fs_write_mode_set_valid (mode : OpenMode) (b : Bool) (σ : Sys) (name : CStr)
    (data : fs_data) :
    fs_write_mode mode (set_valid b σ) name data =
      ((fs_write_mode mode σ name data).1, set_valid b (fs_write_mode mode σ name data).2) := by
  unfold fs_write_mode set_valid
  simp only []
  cases _fs_strempty σ.fs.write_dir with
  | true => rfl
  | false =>
    simp only [Bool.false_eq_true, if_false]
    cases _fs_concat_path σ.fs.write_dir name with
    | none => rfl
    | some buf =>
      have : _fs_native_open { σ.fs with valid := b } σ.os buf mode =
          _fs_native_open σ.fs σ.os buf mode := by
        cases mode <;> rfl
      simp only [this]

/-- C1 (defect in fs_read). With the mounts a and b inserted in this order and a
regular file x present under a only, fs_exists finds x, the heap could hold its
three bytes, and yet fs_read returns NULL: its loop returns after the first
mount whose join succeeds (b) instead of going on to the lower mount a. -/
theorem fs_read_gives_up_after_first_joinable_mount :
    mounts lowerOnlySys.fs = ["a".toList, "b".toList] ∧
    lookupNode lowerOnlySys.os.nodes "a/x".toList = some (regNode [1, 2, 3]) ∧
    3 ≤ lowerOnlySys.os.heap ∧
    (fs_exists lowerOnlySys "x".toList).1 = true ∧
    (fs_read lowerOnlySys "x".toList 0).1.ptr = none := by
  decide

/-- C2 as stated fails: with the mounts a and then a 254-character mount
inserted, both inserts succeeding and both directories holding a regular file
x with different bytes, fs_read returns the bytes of the copy under a. The join
of the later mount with x does not pass the length check, so the mount is
skipped. -/
theorem fs_read_overlay_long_mount_skipped :
    (fs_insert_basepath (Sys.boot overlayWorld) "a".toList).1 = true ∧
    (fs_insert_basepath (fs_insert_basepath (Sys.boot overlayWorld) "a".toList).2
      longMount).1 = true ∧
    mounts overlaySys.fs = ["a".toList, longMount] ∧
    lookupNode overlaySys.os.nodes (join_path "a".toList "x".toList) = some (regNode [1]) ∧
    lookupNode overlaySys.os.nodes (join_path longMount "x".toList) = some (regNode [2]) ∧
    (fs_read overlaySys "x".toList 0).1 = ⟨some [1], 1⟩ ∧
    (fs_read overlaySys "x".toList 0).1.ptr ≠ some [2] := by
  set_option maxRecDepth 200000 in decide

/-- C2, amended. Let a and then b be inserted successfully, let both hold a
regular file x with different bytes, let the join of b with x pass the length
check of _fs_concat_path and let malloc be able to deliver the size of the
copy under b. Then fs_read returns exactly the bytes of the copy under b, sets
the size to their number, and does not return the bytes of the copy under a. -/
theorem fs_read_overlay_precedence (σ : Sys) (a b x : CStr) (ca cb : List Nat) (ta tb : Int)
    (size : Nat)
    (ha : (fs_insert_basepath σ a).1 = true)
    (hb : (fs_insert_basepath (fs_insert_basepath σ a).2 b).1 = true)
    (_hfa : lookupNode σ.os.nodes (join_path a x) = some ⟨st_mode.S_IFREG, ca, ta⟩)
    (hfb : lookupNode σ.os.nodes (join_path b x) = some ⟨st_mode.S_IFREG, cb, tb⟩)
    (hne : ca ≠ cb)
    (hlen : b.length + x.length + 2 ≤ FS_MAX_PATH)
    (hheap : cb.length ≤ σ.os.heap) :
    (fs_read (fs_insert_basepath (fs_insert_basepath σ a).2 b).2 x size).1 =
      ⟨some cb, cb.length⟩ ∧
    (fs_read (fs_insert_basepath (fs_insert_basepath σ a).2 b).2 x size).1.ptr ≠ some ca := by
  have hres : (fs_read (fs_insert_basepath (fs_insert_basepath σ a).2 b).2 x size).1 =
      ⟨some cb, cb.length⟩ := by
    rw [fs_insert_basepath_true_eq _ b hb, fs_insert_basepath_true_eq σ a ha]
    have hc : _fs_concat_path b x = some (join_path b x) := by
      unfold _fs_concat_path
      have : ¬ (b.length + x.length + 2 > FS_MAX_PATH) := by omega
      simp only [this, if_false]
    simp only [fs_read, fs_read_loop, if_true, hc]
    exact open_read_existing _ σ.os (join_path b x) ⟨st_mode.S_IFREG, cb, tb⟩ size hfb hheap
  refine ⟨hres, ?_⟩
  rw [hres]
  intro h
  exact hne (Option.some.inj h).symm

/-- Witness for C2 as amended: the mounts a and b over twoCopiesWorld; the copy
under b holds a zero byte. -/
theorem fs_read_overlay_precedence_witness :
    (fs_insert_basepath (Sys.boot twoCopiesWorld) "a".toList).1 = true ∧
    (fs_read (fs_insert_basepath (fs_insert_basepath (Sys.boot twoCopiesWorld)
      "a".toList).2 "b".toList).2 "x".toList 0).1 = ⟨some [2, 0, 2], 3⟩ :=
  ⟨by decide,
   (fs_read_overlay_precedence (Sys.boot twoCopiesWorld) "a".toList "b".toList "x".toList
      [1] [2, 0, 2] 0 0 0 (by decide) (by decide) (by decide) (by decide) (by decide)
      (by decide) (by decide)).1⟩

/-- C3. fs_insert_basepath returns false exactly when the path has 256 or more
characters, or the table is full (count at least FS_MAX_MOUNTS, which is count
equal to 3 whenever count is at most 3), or one of the first count slots equals
the path; a false return leaves the whole system state unchanged; and inserting
the same path a second time returns false and changes nothing. -/
theorem fs_insert_basepath_false_iff (σ : Sys) (path : CStr) :
    ((fs_insert_basepath σ path).1 = false ↔
      (FS_MAX_PATH ≤ path.length ∨ FS_MAX_MOUNTS ≤ σ.fs.count ∨
        ∃ i, i < σ.fs.count ∧ σ.fs.base_path i = path)) ∧
    (σ.fs.count ≤ 3 →
      ((fs_insert_basepath σ path).1 = false ↔
        (256 ≤ path.length ∨ σ.fs.count = 3 ∨
          ∃ i, i < σ.fs.count ∧ σ.fs.base_path i = path))) ∧
    ((fs_insert_basepath σ path).1 = false → (fs_insert_basepath σ path).2 = σ) ∧
    (fs_insert_basepath (fs_insert_basepath σ path).2 path).1 = false ∧
    (fs_insert_basepath (fs_insert_basepath σ path).2 path).2 =
      (fs_insert_basepath σ path).2 := by
  have key : (fs_insert_basepath σ path).1 = false ↔
      (FS_MAX_PATH ≤ path.length ∨ FS_MAX_MOUNTS ≤ σ.fs.count ∨
        ∃ i, i < σ.fs.count ∧ σ.fs.base_path i = path) := by
    unfold fs_insert_basepath
    by_cases hg : path.length ≥ FS_MAX_PATH ∨ σ.fs.count ≥ FS_MAX_MOUNTS
    · simp only [hg, if_true, true_iff]
      rcases hg with h | h
      · exact Or.inl h
      · exact Or.inr (Or.inl h)
    · simp only [hg, if_false]
      cases hf : find_mount σ.fs.base_path path σ.fs.count with
      | some idx =>
        simp only [true_iff]
        exact Or.inr (Or.inr ((find_mount_isSome_iff _ _ _).mp ⟨idx, hf⟩))
      | none =>
        simp only [Bool.true_eq_false, false_iff]
        rintro (h | h | ⟨i, hi, hp⟩)
        · exact hg (Or.inl h)
        · exact hg (Or.inr h)
        · exact (find_mount_none_iff _ _ _).mp hf i hi hp
  have unchanged : ∀ (τ : Sys), (fs_insert_basepath τ path).1 = false →
      (fs_insert_basepath τ path).2 = τ := by
    intro τ
    unfold fs_insert_basepath
    by_cases hg : path.length ≥ FS_MAX_PATH ∨ τ.fs.count ≥ FS_MAX_MOUNTS
    · simp [hg]
    · simp only [hg, if_false]
      cases hf : find_mount τ.fs.base_path path τ.fs.count with
      | some idx => simp
      | none => simp
  have second : (fs_insert_basepath (fs_insert_basepath σ path).2 path).1 = false := by
    cases hr : (fs_insert_basepath σ path).1 with
    | false =>
      rw [unchanged σ hr]
      exact hr
    | true =>
      unfold fs_insert_basepath at hr ⊢
      by_cases hg : path.length ≥ FS_MAX_PATH ∨ σ.fs.count ≥ FS_MAX_MOUNTS
      · simp [hg] at hr
      · simp only [hg, if_false] at hr ⊢
        cases hf : find_mount σ.fs.base_path path σ.fs.count with
        | some idx => simp [hf] at hr
        | none =>
          simp only []
          by_cases hg2 : path.length ≥ FS_MAX_PATH ∨ σ.fs.count + 1 ≥ FS_MAX_MOUNTS
          · simp [hg2]
          · simp only [hg2, if_false]
            simp [find_mount]
  refine ⟨key, ?_, unchanged σ, second, unchanged _ second⟩
  intro hc
  rw [key]
  simp only [FS_MAX_PATH, FS_MAX_MOUNTS]
  constructor
  · rintro (h | h | h)
    · exact Or.inl h
    · exact Or.inr (Or.inl (by omega))
    · exact Or.inr (Or.inr h)
  · rintro (h | h | h)
    · exact Or.inl h
    · exact Or.inr (Or.inl (by omega))
    · exact Or.inr (Or.inr h)

/-- C4. When fs_insert_basepath returns true the path sits in slot old count,
count has grown by one, every other slot keeps its value, the mount sequence is
the old one with the path appended, and nothing else changes; after inserting
foo, foo/bar and foo/bar/fizz into an empty table the slots 0, 1 and 2 hold
them in this order. -/
theorem fs_insert_basepath_appends (σ : Sys) (path : CStr)
    (h : (fs_insert_basepath σ path).1 = true) :
    (fs_insert_basepath σ path).2.fs.base_path σ.fs.count = path ∧
    (fs_insert_basepath σ path).2.fs.count = σ.fs.count + 1 ∧
    (∀ j, j ≠ σ.fs.count →
      (fs_insert_basepath σ path).2.fs.base_path j = σ.fs.base_path j) ∧
    mounts (fs_insert_basepath σ path).2.fs = mounts σ.fs ++ [path] ∧
    (fs_insert_basepath σ path).2.fs.write_dir = σ.fs.write_dir ∧
    (fs_insert_basepath σ path).2.fs.cwd = σ.fs.cwd ∧
    (fs_insert_basepath σ path).2.fs.valid = σ.fs.valid ∧
    (fs_insert_basepath σ path).2.os = σ.os ∧
    (threeMountSys.fs.count = 3 ∧
      threeMountSys.fs.base_path 0 = "foo".toList ∧
      threeMountSys.fs.base_path 1 = "foo/bar".toList ∧
      threeMountSys.fs.base_path 2 = "foo/bar/fizz".toList) := by
  unfold fs_insert_basepath at h ⊢
  by_cases hg : path.length ≥ FS_MAX_PATH ∨ σ.fs.count ≥ FS_MAX_MOUNTS
  · simp [hg] at h
  · simp only [hg, if_false] at h ⊢
    cases hf : find_mount σ.fs.base_path path σ.fs.count with
    | some idx => simp [hf] at h
    | none =>
      simp only []
      refine ⟨by simp, trivial, ?_, ?_, trivial, trivial, trivial, trivial, by decide⟩
      · intro j hj
        simp [hj]
      · apply List.ext_getElem?
        intro n
        rw [mounts_getElem?, List.getElem?_append, mounts_length, mounts_getElem?]
        by_cases h1 : n < σ.fs.count
        · have h2 : n ≠ σ.fs.count := by omega
          have h3 : n < σ.fs.count + 1 := by omega
          simp [h1, h2, h3]
        · by_cases h2 : n = σ.fs.count
          · subst h2
            simp
          · have h3 : ¬ n < σ.fs.count + 1 := by omega
            have h4 : n - σ.fs.count ≠ 0 := by omega
            simp [h1, h3]
            omega

/-- Witness for C4: inserting foo into the empty table. -/
theorem fs_insert_basepath_appends_witness :
    (fs_insert_basepath (Sys.boot World.blank) "foo".toList).1 = true ∧
    (fs_insert_basepath (Sys.boot World.blank) "foo".toList).2.fs.base_path 0 = "foo".toList ∧
    (fs_insert_basepath (Sys.boot World.blank) "foo".toList).2.fs.count = 1 :=
  ⟨by decide,
   (fs_insert_basepath_appends (Sys.boot World.blank) "foo".toList (by decide)).1,
   (fs_insert_basepath_appends (Sys.boot World.blank) "foo".toList (by decide)).2.1⟩

/-- C5. fs_remove_basepath returns true exactly when one of the first count
slots equals the path. On a miss the system state is unchanged. On a hit, with
idx the highest matching index: count drops by one, the mount sequence is the
old one with position idx erased (the others keep their order), the slot that
was last is empty, the slots from old count on and all other fields are
untouched. For the mounts foo, foo/bar, foo/bar/fizz, removing foo leaves
foo/bar, foo/bar/fizz and an empty slot 2. -/
theorem fs_remove_basepath_erases_highest_match (σ : Sys) (path : CStr) :
    ((fs_remove_basepath σ path).1 = true ↔
      ∃ i, i < σ.fs.count ∧ σ.fs.base_path i = path) ∧
    ((fs_remove_basepath σ path).1 = false → (fs_remove_basepath σ path).2 = σ) ∧
    (∀ idx, idx < σ.fs.count → σ.fs.base_path idx = path →
      (∀ j, idx < j → j < σ.fs.count → σ.fs.base_path j ≠ path) →
        (fs_remove_basepath σ path).1 = true ∧
        (fs_remove_basepath σ path).2.fs.count + 1 = σ.fs.count ∧
        mounts (fs_remove_basepath σ path).2.fs = (mounts σ.fs).eraseIdx idx ∧
        (fs_remove_basepath σ path).2.fs.base_path (σ.fs.count - 1) = [] ∧
        (∀ j, σ.fs.count ≤ j →
          (fs_remove_basepath σ path).2.fs.base_path j = σ.fs.base_path j) ∧
        (fs_remove_basepath σ path).2.fs.write_dir = σ.fs.write_dir ∧
        (fs_remove_basepath σ path).2.fs.cwd = σ.fs.cwd ∧
        (fs_remove_basepath σ path).2.fs.valid = σ.fs.valid ∧
        (fs_remove_basepath σ path).2.os = σ.os) ∧
    ((fs_remove_basepath threeMountSys "foo".toList).1 = true ∧
      (fs_remove_basepath threeMountSys "foo".toList).2.fs.count = 2 ∧
      (fs_remove_basepath threeMountSys "foo".toList).2.fs.base_path 0 = "foo/bar".toList ∧
      (fs_remove_basepath threeMountSys "foo".toList).2.fs.base_path 1 =
        "foo/bar/fizz".toList ∧
      (fs_remove_basepath threeMountSys "foo".toList).2.fs.base_path 2 = []) := by
  refine ⟨?_, ?_, ?_, by decide⟩
  · cases hf : find_mount σ.fs.base_path path σ.fs.count with
    | none =>
      simp only [fs_remove_basepath, hf, Bool.false_eq_true, false_iff]
      rintro ⟨i, hi, hp⟩
      exact (find_mount_none_iff _ _ _).mp hf i hi hp
    | some idx =>
      simp only [fs_remove_basepath, hf, true_iff]
      exact (find_mount_isSome_iff _ _ _).mp ⟨idx, hf⟩
  · cases hf : find_mount σ.fs.base_path path σ.fs.count with
    | none => simp [fs_remove_basepath, hf]
    | some idx => simp [fs_remove_basepath, hf]
  · intro idx hlt heq hmax
    have hf : find_mount σ.fs.base_path path σ.fs.count = some idx :=
      (find_mount_some_iff _ _ _ _).mpr ⟨hlt, heq, hmax⟩
    simp only [fs_remove_basepath, hf]
    refine ⟨trivial, by omega, ?_, by simp, ?_, trivial, trivial, trivial, trivial⟩
    · apply List.ext_getElem?
      intro n
      rw [mounts_getElem?, List.getElem?_eraseIdx, mounts_getElem?, mounts_getElem?]
      simp only []
      by_cases h1 : n < idx
      · have h2 : n < σ.fs.count - 1 := by omega
        have h3 : n < σ.fs.count := by omega
        have h4 : n ≠ σ.fs.count - 1 := by omega
        have h5 : ¬ (idx ≤ n ∧ n < idx + (σ.fs.count - idx - 1)) := by omega
        simp [h1, h2, h3, h4, h5]
      · by_cases h2 : n < σ.fs.count - 1
        · have h3 : n + 1 < σ.fs.count := by omega
          have h4 : n ≠ σ.fs.count - 1 := by omega
          have h5 : idx ≤ n ∧ n < idx + (σ.fs.count - idx - 1) := by omega
          simp [h1, h2, h3, h4, h5]
        · have h3 : ¬ n + 1 < σ.fs.count := by omega
          simp [h1, h2, h3]
    · intro j hj
      have h4 : j ≠ σ.fs.count - 1 := by omega
      have h5 : ¬ (idx ≤ j ∧ j < idx + (σ.fs.count - idx - 1)) := by omega
      simp [h4, h5]

/-- C6. fs_exists returns true exactly when one of the first count slots joins
with the name (the join passing the length check) to a path under which an
entry exists; replacing the write directory by any other value changes neither
the answer nor the effect on the operating system; the global record and the
directory entries are left unchanged. With the single mount m holding a file
f and a directory d, and the write directory save, both f and d exist, while
neither an absent name nor a name present only beside the mount does. -/
theorem fs_exists_iff_some_mount_resolves (σ : Sys) (name : CStr) :
    ((fs_exists σ name).1 = true ↔
      ∃ i, i < σ.fs.count ∧ ∃ buf, _fs_concat_path (σ.fs.base_path i) name = some buf ∧
        ∃ nd, lookupNode σ.os.nodes buf = some nd) ∧
    (∀ wd : CStr,
      (fs_exists { σ with fs := { σ.fs with write_dir := wd } } name).1 = (fs_exists σ name).1 ∧
      (fs_exists { σ with fs := { σ.fs with write_dir := wd } } name).2.os =
        (fs_exists σ name).2.os) ∧
    (fs_exists σ name).2.fs = σ.fs ∧
    (fs_exists σ name).2.os.nodes = σ.os.nodes ∧
    ((fs_exists mountOnlySys "f".toList).1 = true ∧
      (fs_exists mountOnlySys "d".toList).1 = true ∧
      (fs_exists mountOnlySys "save".toList).1 = false ∧
      (fs_exists mountOnlySys "g".toList).1 = false) := by
  refine ⟨?_, ?_, rfl, ?_, by decide⟩
  · unfold fs_exists
    exact fs_exists_loop_true_iff σ.fs name σ.fs.count σ.os
  · intro wd
    unfold fs_exists
    simp only []
    rw [fs_exists_loop_congr { σ.fs with write_dir := wd } σ.fs rfl]
    exact ⟨rfl, rfl⟩
  · unfold fs_exists
    obtain ⟨t, ht⟩ := fs_exists_loop_frame σ.fs name σ.fs.count σ.os
    simp only [ht]

/-- C7. fs_get_info answers exactly as fs_exists does (and has the same effect
on the operating system). When it answers false the caller's record is left
as it was. When it answers true the record holds the size, the modification
time and the type of the entry found under the highest-index mount that
resolves the path, the type being FS_FILETYPE_REG for a regular file and
FS_FILETYPE_DIR for a directory. The global record is unchanged. For the mount
m the file f is reported as regular with size 2, the directory d as a
directory, and the absent name g leaves the record as it was. -/
theorem fs_get_info_agrees_with_fs_exists (σ : Sys) (path : CStr) (info : fs_info) :
    (fs_get_info σ path info).1 = (fs_exists σ path).1 ∧
    (fs_get_info σ path info).2.2 = (fs_exists σ path).2 ∧
    ((fs_get_info σ path info).1 = false → (fs_get_info σ path info).2.1 = info) ∧
    ((fs_get_info σ path info).1 = true →
      ∃ i buf nd, i < σ.fs.count ∧ _fs_concat_path (σ.fs.base_path i) path = some buf ∧
        lookupNode σ.os.nodes buf = some nd ∧
        (∀ j, i < j → j < σ.fs.count → ∀ b, _fs_concat_path (σ.fs.base_path j) path = some b →
          lookupNode σ.os.nodes b = none) ∧
        (fs_get_info σ path info).2.1.size = nd.content.length ∧
        (fs_get_info σ path info).2.1.modtime = nd.mtime ∧
        (fs_get_info σ path info).2.1.type = file_type_of nd.mode ∧
        (nd.mode = st_mode.S_IFREG →
          (fs_get_info σ path info).2.1.type = fs_file_type.FS_FILETYPE_REG) ∧
        (nd.mode = st_mode.S_IFDIR →
          (fs_get_info σ path info).2.1.type = fs_file_type.FS_FILETYPE_DIR)) ∧
    (fs_get_info σ path info).2.2.fs = σ.fs ∧
    ((fs_get_info mountOnlySys "f".toList ⟨fs_file_type.FS_FILETYPE_NONE, 0, 0⟩).1 = true ∧
      (fs_get_info mountOnlySys "f".toList ⟨fs_file_type.FS_FILETYPE_NONE, 0, 0⟩).2.1 =
        ⟨fs_file_type.FS_FILETYPE_REG, 2, 0⟩ ∧
      (fs_get_info mountOnlySys "d".toList ⟨fs_file_type.FS_FILETYPE_NONE, 5, 5⟩).2.1.type =
        fs_file_type.FS_FILETYPE_DIR ∧
      (fs_get_info mountOnlySys "g".toList ⟨fs_file_type.FS_FILETYPE_NONE, 5, 5⟩).1 = false ∧
      (fs_get_info mountOnlySys "g".toList ⟨fs_file_type.FS_FILETYPE_NONE, 5, 5⟩).2.1 =
        ⟨fs_file_type.FS_FILETYPE_NONE, 5, 5⟩) := by
  obtain ⟨h1, h2, h3, h4⟩ := fs_get_info_loop_spec σ.fs path σ.fs.count σ.os info
  unfold fs_get_info fs_exists
  refine ⟨h1, ?_, h3, ?_, rfl, by decide⟩
  · simp only [h2]
  · intro ht
    obtain ⟨i, buf, nd, hi, hb, hn, hmax, hinfo⟩ := h4 ht
    refine ⟨i, buf, nd, hi, hb, hn, hmax, ?_⟩
    simp only [hinfo]
    refine ⟨trivial, trivial, trivial, ?_, ?_⟩
    · intro hm; rw [hm]; rfl
    · intro hm; rw [hm]; rfl

/-- C10. When the write directory is unset, fs_write, fs_append, fs_mkdir and
fs_delete return false for every argument and hand back the system exactly as
it was: no call is added to the trace, and entries, streams and global record
are unchanged. The write directory is unset after every fs_setup whose
descriptor has a NULL or empty write_dir. -/
theorem unset_write_dir_rejects_every_mutation (σ : Sys) (name path : CStr) (data : fs_data)
    (h : _fs_strempty σ.fs.write_dir = true) :
    fs_write σ name data = (false, σ) ∧
    fs_append σ name data = (false, σ) ∧
    fs_mkdir σ path = (false, σ) ∧
    fs_delete σ name = (false, σ) ∧
    (∀ (σ0 : Sys) (desc : fs_desc), desc.write_dir = none ∨ desc.write_dir = some [] →
      _fs_strempty (fs_setup σ0 desc).fs.write_dir = true) := by
  refine ⟨?_, ?_, ?_, ?_, ?_⟩
  · simp [fs_write, fs_write_mode, h]
  · simp [fs_append, fs_write_mode, h]
  · simp [fs_mkdir, h]
  · simp [fs_delete, h]
  · intro σ0 desc hd
    have hwd : (fs_setup σ0 desc).fs.write_dir = _fs_strcpy desc.write_dir := by
      unfold fs_setup fs_setup_slot
      simp only []
      cases desc.base_paths 0 <;> cases desc.base_paths 1 <;> cases desc.base_paths 2 <;> rfl
    rw [hwd]
    rcases hd with hd | hd <;> rw [hd] <;> rfl

/-- Witness for C10: the system set up without a write directory. -/
theorem unset_write_dir_rejects_every_mutation_witness :
    _fs_strempty noWriteDirSys.fs.write_dir = true ∧
    fs_write noWriteDirSys "f".toList ⟨[1, 2]⟩ = (false, noWriteDirSys) ∧
    fs_append noWriteDirSys "f".toList ⟨[1, 2]⟩ = (false, noWriteDirSys) ∧
    fs_mkdir noWriteDirSys "d".toList = (false, noWriteDirSys) ∧
    fs_delete noWriteDirSys "f".toList = (false, noWriteDirSys) :=
  ⟨by decide,
   (unset_write_dir_rejects_every_mutation noWriteDirSys "f".toList "d".toList ⟨[1, 2]⟩
      (by decide)).1,
   (unset_write_dir_rejects_every_mutation noWriteDirSys "f".toList "d".toList ⟨[1, 2]⟩
      (by decide)).2.1,
   (unset_write_dir_rejects_every_mutation noWriteDirSys "f".toList "d".toList ⟨[1, 2]⟩
      (by decide)).2.2.1,
   (unset_write_dir_rejects_every_mutation noWriteDirSys "f".toList "d".toList ⟨[1, 2]⟩
      (by decide)).2.2.2.1⟩

/-- C11. Let the highest-index mount be the write directory and let malloc be
able to deliver as many bytes as are written. Then after a successful fs_write
of a name and a byte sequence, fs_read of the same name returns a buffer
holding exactly these bytes and sets the size to their number, whatever was
stored under the name before. -/
theorem fs_write_then_fs_read_round_trip (σ : Sys) (name : CStr) (data : fs_data) (size : Nat)
    (hcount : 0 < σ.fs.count)
    (hmount : σ.fs.base_path (σ.fs.count - 1) = σ.fs.write_dir)
    (hw : (fs_write σ name data).1 = true)
    (hheap : data.size ≤ σ.os.heap) :
    (fs_read (fs_write σ name data).2 name size).1 = ⟨some data.data, data.size⟩ := by
  have hfs : (fs_write σ name data).2.fs = σ.fs :=
    (fs_write_mode_sandbox OpenMode._FS_MWRITE (by decide) σ name data).1
  obtain ⟨_, hc, hh, _, hnode⟩ :=
    fs_write_mode_success OpenMode._FS_MWRITE (by decide) σ name data hw
  have hl : ∃ nd, lookupNode (fs_write σ name data).2.os.nodes (join_path σ.fs.write_dir name) =
      some nd ∧ nd.content = data.data := by
    rcases hnode with ⟨_, hl⟩ | ⟨nd, _, _, ⟨_, hl⟩ | ⟨hm, _⟩⟩
    · exact ⟨_, hl, rfl⟩
    · exact ⟨_, hl, rfl⟩
    · cases hm
  obtain ⟨nd, hnd, hcontent⟩ := hl
  obtain ⟨k, hk⟩ : ∃ k, σ.fs.count = k + 1 := ⟨σ.fs.count - 1, by omega⟩
  have hslot : σ.fs.base_path k = σ.fs.write_dir := by
    rw [hk] at hmount
    exact hmount
  unfold fs_read
  simp only [hfs, hk, fs_read_loop, hslot, hc]
  have hread := open_read_existing σ.fs (fs_write σ name data).2.os
    (join_path σ.fs.write_dir name) nd size hnd (by
      rw [hcontent]
      have : (fs_write σ name data).2.os.heap = σ.os.heap := hh
      rw [this]
      exact hheap)
  rw [hcontent] at hread
  exact hread

/-- Witness for C11: the file save/f holds three bytes; the bytes 1, 0, 2 are
written over it and read back. -/
theorem fs_write_then_fs_read_round_trip_witness :
    (fs_write saveSys "f".toList ⟨[1, 0, 2]⟩).1 = true ∧
    lookupNode saveSys.os.nodes "save/f".toList = some (regNode [5, 5, 5]) ∧
    (fs_read (fs_write saveSys "f".toList ⟨[1, 0, 2]⟩).2 "f".toList 0).1 =
      ⟨some [1, 0, 2], 3⟩ :=
  ⟨by decide, by decide,
   fs_write_then_fs_read_round_trip saveSys "f".toList ⟨[1, 0, 2]⟩ 0 (by decide) (by decide)
     (by decide) (by decide)⟩

/-- C12. Let fs_append succeed. If nothing was stored under the join of the
write directory with the name, a regular file holding exactly the appended
bytes is stored there afterwards, fs_write of the same arguments succeeds as
well and leaves the same directory entries. If an entry with content c was
stored there, it holds c followed by the appended bytes afterwards. -/
theorem fs_append_appends (σ : Sys) (name : CStr) (d : fs_data)
    (h : (fs_append σ name d).1 = true) :
    (lookupNode σ.os.nodes (join_path σ.fs.write_dir name) = none →
      lookupNode (fs_append σ name d).2.os.nodes (join_path σ.fs.write_dir name) =
        some ⟨st_mode.S_IFREG, d.data, σ.os.now⟩ ∧
      (fs_write σ name d).1 = true ∧
      (fs_write σ name d).2.os.nodes = (fs_append σ name d).2.os.nodes) ∧
    (∀ nd, lookupNode σ.os.nodes (join_path σ.fs.write_dir name) = some nd →
      lookupNode (fs_append σ name d).2.os.nodes (join_path σ.fs.write_dir name) =
        some ⟨nd.mode, nd.content ++ d.data, σ.os.now⟩) := by
  obtain ⟨hwd, hc, _, _, hnode⟩ :=
    fs_write_mode_success OpenMode._FS_MAPPEND (by decide) σ name d h
  constructor
  · intro h0
    have hfresh : lookupNode (fs_append σ name d).2.os.nodes (join_path σ.fs.write_dir name) =
        some ⟨st_mode.S_IFREG, d.data, σ.os.now⟩ := by
      rcases hnode with ⟨_, hl⟩ | ⟨nd, h1, _⟩
      · exact hl
      · rw [h0] at h1
        cases h1
    refine ⟨hfresh, ?_⟩
    simp only [fs_append, fs_write, fs_write_mode, hwd, Bool.false_eq_true, if_false, hc,
      native_open_for_writing σ.fs σ.os _ OpenMode._FS_MAPPEND (by decide) hwd,
      native_open_for_writing σ.fs σ.os _ OpenMode._FS_MWRITE (by decide) hwd] at h ⊢
    unfold os_fopen at h ⊢
    simp only [h0] at h ⊢
    by_cases hp : parentOk σ.os.nodes (join_path σ.fs.write_dir name) = true
    · simp only [hp, if_true, _fs_native_write, os_fwrite, World.log, os_fclose] at h ⊢
      simp only [reduceCtorEq, if_false] at h ⊢
      exact ⟨h, trivial⟩
    · simp [hp, _fs_native_write] at h
  · intro nd h1
    rcases hnode with ⟨h0, _⟩ | ⟨nd2, h2, _, ⟨hm, _⟩ | ⟨_, hl⟩⟩
    · rw [h0] at h1
      cases h1
    · cases hm
    · rw [h1] at h2
      cases h2
      exact hl

/-- Witness for C12: three bytes are in save/f, two more are appended. -/
theorem fs_append_appends_witness :
    (fs_append saveSys "f".toList ⟨[8, 9]⟩).1 = true ∧
    lookupNode (fs_append saveSys "f".toList ⟨[8, 9]⟩).2.os.nodes "save/f".toList =
      some (regNode [5, 5, 5, 8, 9]) ∧
    (fs_append saveSys "g".toList ⟨[8, 9]⟩).1 = true ∧
    lookupNode (fs_append saveSys "g".toList ⟨[8, 9]⟩).2.os.nodes "save/g".toList =
      some (regNode [8, 9]) :=
  ⟨by decide,
   (fs_append_appends saveSys "f".toList ⟨[8, 9]⟩ (by decide)).2 (regNode [5, 5, 5]) (by decide),
   by decide,
   ((fs_append_appends saveSys "g".toList ⟨[8, 9]⟩ (by decide)).1 (by decide)).1⟩

/-- C13. For a non-empty directory string and a name for which
_fs_concat_path succeeds, the string written is the directory followed by the
name when the directory ends in a separator, and the directory, one separator
and the name otherwise. In the first case the directory is some string pre
followed by the separator and the result is pre, one separator, the name: the
join adds no second separator. The checked length is the same in both cases. -/
theorem concat_path_single_separator (dir name buf : CStr) (hne : dir ≠ [])
    (h : _fs_concat_path dir name = some buf) :
    (dir.getLast hne = '/' → buf = dir ++ name) ∧
    (dir.getLast hne ≠ '/' → buf = dir ++ ['/'] ++ name) ∧
    (∀ pre, dir = pre ++ ['/'] → buf = pre ++ ['/'] ++ name) ∧
    ((∀ pre, dir ≠ pre ++ ['/']) → buf = dir ++ ['/'] ++ name) ∧
    dir.length + name.length + 2 ≤ FS_MAX_PATH := by
  have hlast : dir.getLast? = some (dir.getLast hne) := List.getLast?_eq_getLast dir hne
  unfold _fs_concat_path at h
  by_cases hlen : dir.length + name.length + 2 > FS_MAX_PATH
  · simp [hlen] at h
  · simp only [hlen, if_false, Option.some.injEq] at h
    subst h
    unfold join_path
    rw [hlast]
    refine ⟨?_, ?_, ?_, ?_, by omega⟩
    · intro hs
      simp [hs]
    · intro hs
      simp [hs]
    · intro pre hpre
      have : dir.getLast hne = '/' := by
        subst hpre
        simp
      simp [this, hpre]
    · intro hno
      have : dir.getLast hne ≠ '/' := by
        intro hs
        apply hno dir.dropLast
        rw [← hs]
        exact (List.dropLast_append_getLast hne).symm
      simp [this]

/-- Witness for C13: the directory foo/ and the directory foo joined with bar. -/
theorem concat_path_single_separator_witness :
    "foo/".toList ≠ [] ∧
    _fs_concat_path "foo/".toList "bar".toList = some "foo/bar".toList ∧
    "foo/bar".toList = "foo/".toList ++ "bar".toList ∧
    _fs_concat_path "foo".toList "bar".toList = some "foo/bar".toList :=
  ⟨by decide, by decide,
   (concat_path_single_separator "foo/".toList "bar".toList "foo/bar".toList (by decide)
      (by decide)).1 (by decide),
   by decide⟩

/-- C14. When the join of a directory string with a name is longer than 256
characters, _fs_concat_path returns false (nothing is written); fs_write,
fs_append, fs_mkdir and fs_delete with that write directory return false and
hand back the system unchanged, trace included; a mount holding that string is
skipped by the loops of fs_exists, fs_read and fs_get_info without any call;
and whatever the mount table, none of these three adds a call that carries the
joined path to the trace. In particular the join of every path of 254
characters with every name of 5 characters is rejected. -/
theorem concat_path_rejects_overlong_join (dir name : CStr)
    (h : FS_MAX_PATH < (join_path dir name).length) :
    _fs_concat_path dir name = none ∧
    (∀ (σ : Sys) (data : fs_data), σ.fs.write_dir = dir →
      fs_write σ name data = (false, σ) ∧ fs_append σ name data = (false, σ) ∧
      fs_mkdir σ name = (false, σ) ∧ fs_delete σ name = (false, σ)) ∧
    (∀ (s : _fs_state_t) (n size : Nat) (w : World) (info : fs_info), s.base_path n = dir →
      fs_exists_loop s name (n + 1) w = fs_exists_loop s name n w ∧
      fs_read_loop s name size (n + 1) w = fs_read_loop s name size n w ∧
      fs_get_info_loop s name (n + 1) w info = fs_get_info_loop s name n w info) ∧
    (∀ (σ : Sys) (nm : CStr) (size : Nat) (info : fs_info) (c : Call),
      c.path = some (join_path dir name) →
        (c ∈ (fs_exists σ nm).2.os.trace → c ∈ σ.os.trace) ∧
        (c ∈ (fs_read σ nm size).2.os.trace → c ∈ σ.os.trace) ∧
        (c ∈ (fs_get_info σ nm info).2.2.os.trace → c ∈ σ.os.trace)) ∧
    (∀ d nm : CStr, d.length = 254 → nm.length = 5 → _fs_concat_path d nm = none) := by
  have hlen : FS_MAX_PATH < dir.length + name.length + 2 := by
    have := join_path_length_le dir name
    omega
  have hnone : _fs_concat_path dir name = none := concat_path_none_of_long dir name hlen
  have hlong : ∀ (d nm buf : CStr), _fs_concat_path d nm = some buf →
      buf ≠ join_path dir name := by
    intro d nm buf hb heq
    have := concat_path_length d nm buf hb
    rw [heq] at this
    omega
  refine ⟨hnone, ?_, ?_, ?_, ?_⟩
  · intro σ data hwd
    subst hwd
    refine ⟨?_, ?_, ?_, ?_⟩
    · simp [fs_write, fs_write_mode, hnone]
    · simp [fs_append, fs_write_mode, hnone]
    · simp [fs_mkdir, hnone]
    · simp [fs_delete, hnone]
  · intro s n size w info hs
    subst hs
    refine ⟨?_, ?_, ?_⟩
    · rw [fs_exists_loop]
      simp only [hnone]
    · rw [fs_read_loop]
      simp only [hnone]
    · rw [fs_get_info_loop]
      simp only [hnone]
  · intro σ nm size info c hp
    have hex : c ∈ (fs_exists σ nm).2.os.trace → c ∈ σ.os.trace := by
      intro hc
      rcases fs_exists_loop_calls σ.fs nm σ.fs.count σ.os c hc with h1 | ⟨j, buf, _, hb, he⟩
      · exact h1
      · subst he
        exact absurd (Option.some.inj hp) (hlong _ _ _ hb)
    refine ⟨hex, ?_, ?_⟩
    · intro hc
      rcases fs_read_loop_calls σ.fs nm size σ.fs.count σ.os c hc with h1 | h1 | ⟨j, buf, _, hb, he⟩
      · exact h1
      · rw [h1] at hp
        cases hp
      · rw [he] at hp
        exact absurd (Option.some.inj hp) (hlong _ _ _ hb)
    · intro hc
      apply hex
      have h2 := (fs_get_info_loop_spec σ.fs nm σ.fs.count σ.os info).2.1
      unfold fs_get_info at hc
      unfold fs_exists
      simp only [] at hc ⊢
      rw [← h2]
      exact hc
  · intro d nm hd hn
    apply concat_path_none_of_long
    simp only [FS_MAX_PATH]
    omega

/-- Witness for C14: a path of 254 characters joined with a name of 5. -/
theorem concat_path_rejects_overlong_join_witness :
    FS_MAX_PATH < (join_path longMount "abcde".toList).length ∧
    _fs_concat_path longMount "abcde".toList = none :=
  ⟨by set_option maxRecDepth 200000 in decide,
   (concat_path_rejects_overlong_join longMount "abcde".toList
      (by set_option maxRecDepth 200000 in decide)).1⟩

/-- C15 as stated fails: the mount of 250 characters and the name abcde join,
with one separator, to exactly 256 characters, which does not exceed 256; yet
_fs_concat_path returns false, and fs_exists answers false without any call
although the file exists under the mount. -/
theorem concat_path_rejects_join_of_256 :
    mount250.length + 1 + "abcde".toList.length = 256 ∧
    (join_path mount250 "abcde".toList).length = 256 ∧
    _fs_concat_path mount250 "abcde".toList = none ∧
    mounts mount250Sys.fs = [mount250] ∧
    lookupNode mount250Sys.os.nodes (join_path mount250 "abcde".toList) = some (regNode [9]) ∧
    (fs_exists mount250Sys "abcde".toList).1 = false ∧
    (fs_exists mount250Sys "abcde".toList).2.os.trace = [] := by
  set_option maxRecDepth 200000 in decide

/-- C15, amended. _fs_concat_path fails exactly when the length of the mount
path plus the length of the name plus 2 (separator and terminating zero)
exceeds 256. So for every mount path and name whose join with a separator has
at most 255 characters, _fs_concat_path succeeds with the joined path, and
when no mount of higher index resolves the name, fs_exists and fs_get_info
pass that joined path to stat. -/
theorem concat_path_succeeds_up_to_255 (dir name : CStr)
    (h : dir.length + 1 + name.length ≤ 255) :
    _fs_concat_path dir name = some (join_path dir name) ∧
    (∀ d nm : CStr, _fs_concat_path d nm = none ↔ 256 < d.length + nm.length + 2) ∧
    (∀ (σ : Sys) (i : Nat) (info : fs_info), i < σ.fs.count → σ.fs.base_path i = dir →
      (∀ j, i < j → j < σ.fs.count → ∀ b, _fs_concat_path (σ.fs.base_path j) name = some b →
        lookupNode σ.os.nodes b = none) →
      Call.stat (join_path dir name) ∈ (fs_exists σ name).2.os.trace ∧
      Call.stat (join_path dir name) ∈ (fs_get_info σ name info).2.2.os.trace) := by
  have hfit : dir.length + name.length + 2 ≤ FS_MAX_PATH := by
    simp only [FS_MAX_PATH]
    omega
  have hc := concat_path_of_fits dir name hfit
  refine ⟨hc, fun d nm => concat_path_none_iff d nm, ?_⟩
  intro σ i info hi hd hfree
  subst hd
  have hex : Call.stat (join_path (σ.fs.base_path i) name) ∈ (fs_exists σ name).2.os.trace :=
    fs_exists_loop_reaches σ.fs name i _ hc σ.fs.count σ.os hi hfree
  refine ⟨hex, ?_⟩
  have h2 := (fs_get_info_loop_spec σ.fs name σ.fs.count σ.os info).2.1
  unfold fs_get_info
  unfold fs_exists at hex
  simp only [] at hex ⊢
  rw [h2]
  exact hex

/-- Witness for C15 as amended: the mount foo and the name bar. -/
theorem concat_path_succeeds_up_to_255_witness :
    "foo".toList.length + 1 + "bar".toList.length ≤ 255 ∧
    _fs_concat_path "foo".toList "bar".toList = some (join_path "foo".toList "bar".toList) :=
  ⟨by decide, (concat_path_succeeds_up_to_255 "foo".toList "bar".toList (by decide)).1⟩

/-- C16 (defect in fs_setup). For the descriptor whose only base path a sits in
the middle array slot, fs_setup from the zeroed state stores a in slot 1 but
raises count to 1 only: the mount sequence is the single empty string of slot
0 instead of a, and a file x that exists under a is not found. The path is
stored at the array index instead of at index count. For the descriptor of the
setup test, whose three slots are all filled, the mount sequence is the
descriptor's paths in array order. -/
theorem fs_setup_gap_descriptor_loses_mount :
    desc_paths gapDesc = ["a".toList] ∧
    (fs_setup (Sys.boot lowerOnlyWorld) gapDesc).fs.count = 1 ∧
    (fs_setup (Sys.boot lowerOnlyWorld) gapDesc).fs.base_path 0 = [] ∧
    (fs_setup (Sys.boot lowerOnlyWorld) gapDesc).fs.base_path 1 = "a".toList ∧
    mounts (fs_setup (Sys.boot lowerOnlyWorld) gapDesc).fs = [[]] ∧
    mounts (fs_setup (Sys.boot lowerOnlyWorld) gapDesc).fs ≠ desc_paths gapDesc ∧
    lookupNode lowerOnlyWorld.nodes (join_path "a".toList "x".toList) =
      some (regNode [1, 2, 3]) ∧
    (fs_exists (fs_setup (Sys.boot lowerOnlyWorld) gapDesc) "x".toList).1 = false ∧
    mounts (fs_setup (Sys.boot lowerOnlyWorld) testDesc).fs = desc_paths testDesc := by
  decide

/-- C17 (defect in fs_setup). After fs_setup with the base paths foo, bar, fizz
and fs_shutdown, a second fs_setup with the single base path b leaves count at
4 and the mount sequence b, bar, fizz and an empty string, while the same
descriptor applied to the zeroed state gives count 1 and the mount sequence b:
fs_setup adds to count without resetting it and leaves the slots of NULL
entries as they were. Only the write directory is overwritten. -/
theorem fs_setup_again_keeps_old_mounts :
    (fs_shutdown (fs_setup (Sys.boot World.blank) testDesc)).map
        (fun τ => ((fs_setup τ oneDesc).fs.count, mounts (fs_setup τ oneDesc).fs,
          (fs_setup τ oneDesc).fs.write_dir)) =
      some (4, ["b".toList, "bar".toList, "fizz".toList, []], []) ∧
    ((fs_setup (Sys.boot World.blank) oneDesc).fs.count,
        mounts (fs_setup (Sys.boot World.blank) oneDesc).fs,
        (fs_setup (Sys.boot World.blank) oneDesc).fs.write_dir) =
      (1, ["b".toList], []) ∧
    (∀ (σ : Sys) (desc : fs_desc),
      (fs_setup σ desc).fs.write_dir = _fs_strcpy desc.write_dir) := by
  refine ⟨by decide, by decide, ?_⟩
  intro σ desc
  unfold fs_setup fs_setup_slot
  simp only []
  cases desc.base_paths 0 <;> cases desc.base_paths 1 <;> cases desc.base_paths 2 <;> rfl

/-- C18. If the first count slots are pairwise distinct and count is at most
3, the same holds after fs_insert_basepath and after fs_remove_basepath,
whatever the argument and whether the call succeeds or not. -/
theorem mount_invariant_preserved (σ : Sys) (path : CStr) (h : mount_invariant σ.fs) :
    mount_invariant (fs_insert_basepath σ path).2.fs ∧
    mount_invariant (fs_remove_basepath σ path).2.fs := by
  obtain ⟨hd, hc⟩ := h
  constructor
  · unfold fs_insert_basepath
    by_cases hg : path.length ≥ FS_MAX_PATH ∨ σ.fs.count ≥ FS_MAX_MOUNTS
    · simp only [hg, if_true]
      exact ⟨hd, hc⟩
    · simp only [hg, if_false]
      cases hf : find_mount σ.fs.base_path path σ.fs.count with
      | some idx => exact ⟨hd, hc⟩
      | none =>
        have hnew := (find_mount_none_iff _ _ _).mp hf
        have hlt : σ.fs.count < FS_MAX_MOUNTS := by
          by_contra hge
          exact hg (Or.inr (by omega))
        refine ⟨?_, ?_⟩
        · intro i hi j hj heq
          simp only [] at hi hj heq
          by_cases h1 : i = σ.fs.count
          · by_cases h2 : j = σ.fs.count
            · omega
            · simp only [h1, h2, if_true, if_false] at heq
              exact absurd heq.symm (hnew j (by omega))
          · by_cases h2 : j = σ.fs.count
            · simp only [h1, h2, if_true, if_false] at heq
              exact absurd heq (hnew i (by omega))
            · simp only [h1, h2, if_false] at heq
              exact hd i (by omega) j (by omega) heq
        · simp only []
          omega
  · cases hf : find_mount σ.fs.base_path path σ.fs.count with
    | none =>
      simp only [fs_remove_basepath, hf]
      exact ⟨hd, hc⟩
    | some idx =>
      simp only [fs_remove_basepath, hf]
      have hidx := ((find_mount_some_iff _ _ _ _).mp hf).1
      refine ⟨?_, ?_⟩
      · intro i hi j hj heq
        simp only [] at hi hj heq
        have hi1 : i ≠ σ.fs.count - 1 := by omega
        have hj1 : j ≠ σ.fs.count - 1 := by omega
        simp only [hi1, hj1, if_false] at heq
        by_cases h1 : idx ≤ i ∧ i < idx + (σ.fs.count - idx - 1)
        · by_cases h2 : idx ≤ j ∧ j < idx + (σ.fs.count - idx - 1)
          · simp only [h1, h2, and_self, if_true] at heq
            have := hd (i + 1) (by omega) (j + 1) (by omega) heq
            omega
          · simp only [h1, h2, and_self, if_true, if_false] at heq
            have := hd (i + 1) (by omega) j (by omega) heq
            omega
        · by_cases h2 : idx ≤ j ∧ j < idx + (σ.fs.count - idx - 1)
          · simp only [h1, h2, and_self, if_true, if_false] at heq
            have := hd i (by omega) (j + 1) (by omega) heq
            omega
          · simp only [h1, h2, if_false] at heq
            exact hd i (by omega) j (by omega) heq
      · simp only []
        omega

/-- Witness for C18: the table foo, foo/bar, foo/bar/fizz, to which buzz is not
added and from which foo/bar is removed. -/
theorem mount_invariant_preserved_witness :
    mount_invariant threeMountSys.fs ∧
    mount_invariant (fs_insert_basepath threeMountSys "buzz".toList).2.fs ∧
    mount_invariant (fs_remove_basepath threeMountSys "foo/bar".toList).2.fs :=
  ⟨by decide,
   (mount_invariant_preserved threeMountSys "buzz".toList (by decide)).1,
   (mount_invariant_preserved threeMountSys "foo/bar".toList (by decide)).2⟩

/-- C19 (defect in fs_setup). For the descriptor naming the base path a twice,
fs_setup from the zeroed state yields the mount sequence a, a: the mount paths
are not pairwise distinct and the invariant fails, whereas fs_insert_basepath
refuses the second a. The count after fs_setup from the zeroed state is at
most 3 for every descriptor. -/
theorem fs_setup_accepts_duplicate_base_paths :
    desc_paths dupDesc = ["a".toList, "a".toList] ∧
    mounts (fs_setup (Sys.boot World.blank) dupDesc).fs = ["a".toList, "a".toList] ∧
    ¬ mount_invariant (fs_setup (Sys.boot World.blank) dupDesc).fs ∧
    (fs_insert_basepath (fs_insert_basepath (Sys.boot World.blank) "a".toList).2
      "a".toList).1 = false ∧
    (∀ (w : World) (desc : fs_desc), (fs_setup (Sys.boot w) desc).fs.count ≤ 3) := by
  refine ⟨by decide, by decide, by decide, by decide, ?_⟩
  intro w desc
  unfold fs_setup fs_setup_slot
  simp only []
  cases desc.base_paths 0 <;> cases desc.base_paths 1 <;> cases desc.base_paths 2 <;>
    simp [Sys.boot, _fs_zero]

/-- C20. fs_is_valid is false in the zeroed state and true after every
fs_setup. fs_shutdown returns on every valid state (its assertion holds) and
fs_is_valid is false after every fs_shutdown that returns. None of
fs_insert_basepath, fs_remove_basepath, fs_exists, fs_read, fs_write,
fs_append, fs_get_info, fs_mkdir, fs_delete and fs_get_cwd changes the flag. -/
theorem fs_is_valid_between_setup_and_shutdown :
    (∀ w : World, fs_is_valid (Sys.boot w) = false) ∧
    (∀ (σ : Sys) (desc : fs_desc), fs_is_valid (fs_setup σ desc) = true) ∧
    (∀ σ : Sys, fs_is_valid σ = true → ∃ τ, fs_shutdown σ = some τ) ∧
    (∀ σ τ : Sys, fs_shutdown σ = some τ → fs_is_valid τ = false) ∧
    (∀ (σ : Sys) (path : CStr) (data : fs_data) (info : fs_info) (size : Nat),
      fs_is_valid (fs_insert_basepath σ path).2 = fs_is_valid σ ∧
      fs_is_valid (fs_remove_basepath σ path).2 = fs_is_valid σ ∧
      fs_is_valid (fs_exists σ path).2 = fs_is_valid σ ∧
      fs_is_valid (fs_read σ path size).2 = fs_is_valid σ ∧
      fs_is_valid (fs_write σ path data).2 = fs_is_valid σ ∧
      fs_is_valid (fs_append σ path data).2 = fs_is_valid σ ∧
      fs_is_valid (fs_get_info σ path info).2.2 = fs_is_valid σ ∧
      fs_is_valid (fs_mkdir σ path).2 = fs_is_valid σ ∧
      fs_is_valid (fs_delete σ path).2 = fs_is_valid σ ∧
      fs_is_valid (fs_get_cwd σ).2 = fs_is_valid σ) := by
  refine ⟨fun _ => rfl, ?_, ?_, ?_, ?_⟩
  · intro σ desc
    rfl
  · intro σ hv
    unfold fs_is_valid at hv
    exact ⟨{ σ with fs := { σ.fs with valid := false } }, by simp [fs_shutdown, hv]⟩
  · intro σ τ h
    unfold fs_shutdown at h
    by_cases hv : σ.fs.valid = true
    · simp only [hv, if_true, Option.some.injEq] at h
      subst h
      rfl
    · simp [hv] at h
  · intro σ path data info size
    refine ⟨?_, ?_, rfl, rfl, ?_, ?_, rfl, ?_, ?_, ?_⟩
    · unfold fs_is_valid
      cases hr : (fs_insert_basepath σ path).1 with
      | true => rw [fs_insert_basepath_true_eq σ path hr]
      | false =>
        unfold fs_insert_basepath at hr ⊢
        by_cases hg : path.length ≥ FS_MAX_PATH ∨ σ.fs.count ≥ FS_MAX_MOUNTS
        · simp [hg]
        · simp only [hg, if_false] at hr ⊢
          cases hf : find_mount σ.fs.base_path path σ.fs.count with
          | some idx => rfl
          | none => simp [hf] at hr
    · unfold fs_is_valid
      cases hf : find_mount σ.fs.base_path path σ.fs.count with
      | none => simp [fs_remove_basepath, hf]
      | some idx => simp [fs_remove_basepath, hf]
    · unfold fs_is_valid fs_write
      rw [(fs_write_mode_sandbox OpenMode._FS_MWRITE (by decide) σ path data).1]
    · unfold fs_is_valid fs_append
      rw [(fs_write_mode_sandbox OpenMode._FS_MAPPEND (by decide) σ path data).1]
    · unfold fs_is_valid fs_mkdir
      split
      · rfl
      · split <;> rfl
    · unfold fs_is_valid fs_delete
      split
      · rfl
      · split <;> rfl
    · unfold fs_is_valid fs_get_cwd
      split
      · split <;> rfl
      · rfl

/-- C21 as stated fails: after fs_setup and fs_shutdown the flag is false, yet
fs_insert_basepath of a new path returns true and raises count to 2,
fs_remove_basepath of the mount returns true, fs_exists and fs_read find the
file save/f, fs_write creates save/g and fs_delete removes save/f. -/
theorem operations_run_after_shutdown :
    fs_shutdown saveSys = some shutSys ∧
    fs_is_valid shutSys = false ∧
    (fs_insert_basepath shutSys "new".toList).1 = true ∧
    (fs_insert_basepath shutSys "new".toList).2.fs.count = 2 ∧
    (fs_remove_basepath shutSys "save".toList).1 = true ∧
    (fs_exists shutSys "f".toList).1 = true ∧
    (fs_read shutSys "f".toList 0).1 = ⟨some [5, 5, 5], 3⟩ ∧
    (fs_write shutSys "g".toList ⟨[1]⟩).1 = true ∧
    lookupNode (fs_write shutSys "g".toList ⟨[1]⟩).2.os.nodes "save/g".toList =
      some (regNode [1]) ∧
    (fs_delete shutSys "f".toList).1 = true ∧
    lookupNode (fs_delete shutSys "f".toList).2.os.nodes "save/f".toList = none :=
  ⟨rfl, by decide⟩

/-- C21, amended. After fs_shutdown the flag is false and a further fs_shutdown
trips the validity assertion. The other operations do not consult the flag:
with the flag set to any value, fs_insert_basepath, fs_remove_basepath,
fs_exists, fs_read, fs_write, fs_append, fs_get_info, fs_mkdir and fs_delete
return the same result and have the same effect on mount table and file system
as with the flag as it was, and leave the flag at that value. -/
theorem operations_ignore_validity_flag (σ : Sys) (b : Bool) (path : CStr) (data : fs_data)
    (info : fs_info) (size : Nat) :
    (∀ τ, fs_shutdown σ = some τ →
      τ = set_valid false σ ∧ fs_is_valid τ = false ∧ fs_shutdown τ = none) ∧
    fs_insert_basepath (set_valid b σ) path =
      ((fs_insert_basepath σ path).1, set_valid b (fs_insert_basepath σ path).2) ∧
    fs_remove_basepath (set_valid b σ) path =
      ((fs_remove_basepath σ path).1, set_valid b (fs_remove_basepath σ path).2) ∧
    fs_exists (set_valid b σ) path =
      ((fs_exists σ path).1, set_valid b (fs_exists σ path).2) ∧
    fs_read (set_valid b σ) path size =
      ((fs_read σ path size).1, set_valid b (fs_read σ path size).2) ∧
    fs_write (set_valid b σ) path data =
      ((fs_write σ path data).1, set_valid b (fs_write σ path data).2) ∧
    fs_append (set_valid b σ) path data =
      ((fs_append σ path data).1, set_valid b (fs_append σ path data).2) ∧
    fs_get_info (set_valid b σ) path info =
      ((fs_get_info σ path info).1, (fs_get_info σ path info).2.1,
        set_valid b (fs_get_info σ path info).2.2) ∧
    fs_mkdir (set_valid b σ) path =
      ((fs_mkdir σ path).1, set_valid b (fs_mkdir σ path).2) ∧
    fs_delete (set_valid b σ) path =
      ((fs_delete σ path).1, set_valid b (fs_delete σ path).2) := by
  refine ⟨?_, ?_, ?_, ?_, ?_, fs_write_mode_set_valid OpenMode._FS_MWRITE b σ path data,
    fs_write_mode_set_valid OpenMode._FS_MAPPEND b σ path data, ?_, ?_, ?_⟩
  · intro τ h
    unfold fs_shutdown at h
    by_cases hv : σ.fs.valid = true
    · simp only [hv, if_true, Option.some.injEq] at h
      subst h
      exact ⟨rfl, rfl, rfl⟩
    · simp [hv] at h
  · unfold fs_insert_basepath set_valid
    simp only []
    by_cases hg : path.length ≥ FS_MAX_PATH ∨ σ.fs.count ≥ FS_MAX_MOUNTS
    · simp only [hg, if_true]
    · simp only [hg, if_false]
      cases find_mount σ.fs.base_path path σ.fs.count <;> rfl
  · unfold fs_remove_basepath set_valid
    simp only []
    cases find_mount σ.fs.base_path path σ.fs.count <;> rfl
  · unfold fs_exists set_valid
    simp only []
    rw [fs_exists_loop_congr { σ.fs with valid := b } σ.fs rfl]
  · unfold fs_read set_valid
    simp only []
    rw [fs_read_loop_congr { σ.fs with valid := b } σ.fs rfl]
  · unfold fs_get_info set_valid
    simp only []
    rw [fs_get_info_loop_congr { σ.fs with valid := b } σ.fs rfl]
  · unfold fs_mkdir set_valid
    simp only []
    cases _fs_strempty σ.fs.write_dir with
    | true => rfl
    | false =>
      simp only [Bool.false_eq_true, if_false]
      cases _fs_concat_path σ.fs.write_dir path <;> rfl
  · unfold fs_delete set_valid
    simp only []
    cases _fs_strempty σ.fs.write_dir with
    | true => rfl
    | false =>
      simp only [Bool.false_eq_true, if_false]
      cases _fs_concat_path σ.fs.write_dir path <;> rfl

/-- C22 as stated fails: fs_setup with a write directory of 300 characters and
a base path of 256 characters reports no error (the state is valid afterwards)
and stores the first 255 characters of each. -/
theorem fs_setup_truncates_overlong_paths :
    overlongDesc.write_dir = some (List.replicate 300 'w') ∧
    overlongDesc.base_paths 0 = some (List.replicate 256 'p') ∧
    fs_is_valid (fs_setup (Sys.boot World.blank) overlongDesc) = true ∧
    (fs_setup (Sys.boot World.blank) overlongDesc).fs.write_dir = List.replicate 255 'w' ∧
    (fs_setup (Sys.boot World.blank) overlongDesc).fs.write_dir ≠ List.replicate 300 'w' ∧
    (fs_setup (Sys.boot World.blank) overlongDesc).fs.base_path 0 = List.replicate 255 'p' ∧
    (fs_setup (Sys.boot World.blank) overlongDesc).fs.base_path 0 ≠ List.replicate 256 'p' := by
  set_option maxRecDepth 200000 in decide

/-- C22, amended. fs_insert_basepath refuses every path of 256 or more
characters, leaving the state as it is, and every path it stores is the full
string supplied. fs_setup stores the first 255 characters of its write
directory (the empty string for NULL) and of each non-NULL base path: a string
of fewer than 256 characters is stored in full, a longer one is cut to 255
characters without any error. -/
theorem stored_paths_full_or_cut_to_255 (σ : Sys) :
    (∀ path : CStr, 256 ≤ path.length → fs_insert_basepath σ path = (false, σ)) ∧
    (∀ path : CStr, (fs_insert_basepath σ path).1 = true →
      (fs_insert_basepath σ path).2.fs.base_path σ.fs.count = path ∧ path.length < 256) ∧
    (∀ desc : fs_desc,
      (fs_setup σ desc).fs.write_dir = (desc.write_dir.getD []).take 255) ∧
    (∀ (desc : fs_desc) (i : Fin 3) (p : CStr), desc.base_paths i = some p →
      (fs_setup σ desc).fs.base_path i.val = p.take 255) ∧
    (∀ p : CStr, p.length < 256 → p.take 255 = p) ∧
    (∀ p : CStr, 256 ≤ p.length → (p.take 255).length = 255) := by
  refine ⟨?_, ?_, ?_, ?_, ?_, ?_⟩
  · intro path hp
    unfold fs_insert_basepath
    have : path.length ≥ FS_MAX_PATH ∨ σ.fs.count ≥ FS_MAX_MOUNTS := Or.inl hp
    simp only [this, if_true]
  · intro path h
    rw [fs_insert_basepath_true_eq σ path h]
    refine ⟨by simp, ?_⟩
    unfold fs_insert_basepath at h
    by_cases hg : path.length ≥ FS_MAX_PATH ∨ σ.fs.count ≥ FS_MAX_MOUNTS
    · simp [hg] at h
    · have : ¬ path.length ≥ FS_MAX_PATH := fun hc => hg (Or.inl hc)
      simp only [FS_MAX_PATH] at this
      omega
  · intro desc
    unfold fs_setup fs_setup_slot
    simp only []
    cases desc.base_paths 0 <;> cases desc.base_paths 1 <;> cases desc.base_paths 2 <;>
      cases desc.write_dir <;> rfl
  · intro desc i p hp
    unfold fs_setup fs_setup_slot
    simp only []
    have hi : i = 0 ∨ i = 1 ∨ i = 2 := by
      rcases i with ⟨v, hv⟩
      have : v = 0 ∨ v = 1 ∨ v = 2 := by omega
      rcases this with h | h | h <;> subst h <;> simp
    rcases hi with h | h | h <;> subst h <;> rw [hp] <;>
      cases desc.base_paths 0 <;> cases desc.base_paths 1 <;> cases desc.base_paths 2 <;>
      simp [_fs_strcpy, FS_MAX_PATH]
  · intro p hp
    exact List.take_of_length_le (by omega)
  · intro p hp
    simp only [List.length_take]
    omega

/-- C24. For every non-empty path of at most 255 characters _fs_native_mkdir
does what the chain of the specification does on the attempts of the
specification: it calls mkdir on every prefix that ends in front of a
separator behind the first byte, shortest first, and finally on the full path;
the attempts grow in length; an attempt that fails with another errno than
EEXIST ends the chain with false, no further call being made; otherwise the
result is true and all attempts have been made. A path of more than 255
characters is refused without any call. Creating foo and then foo/bar/fizz
both return true and leave the three directories. -/
theorem native_mkdir_makes_directory_chain (w : World) (path : CStr) (hne : path ≠ [])
    (hlen : path.length ≤ 255) :
    _fs_native_mkdir w path = spec_mkdir_chain (spec_mkdir_attempts path) w ∧
    (spec_mkdir_attempts path).Pairwise (fun a b => a.length < b.length) ∧
    (∃ k, 0 < k ∧ k ≤ (spec_mkdir_attempts path).length ∧
      (_fs_native_mkdir w path).2.trace =
        w.trace ++ ((spec_mkdir_attempts path).take k).map Call.mkdir ∧
      ((_fs_native_mkdir w path).1 = true → k = (spec_mkdir_attempts path).length)) ∧
    (∀ (v : World) (p : CStr), 255 < p.length → _fs_native_mkdir v p = (false, v)) ∧
    spec_mkdir_attempts "foo/bar/fizz".toList =
      ["foo".toList, "foo/bar".toList, "foo/bar/fizz".toList] ∧
    ((_fs_native_mkdir World.blank "foo".toList).1 = true ∧
      (_fs_native_mkdir (_fs_native_mkdir World.blank "foo".toList).2
        "foo/bar/fizz".toList).1 = true ∧
      (_fs_native_mkdir (_fs_native_mkdir World.blank "foo".toList).2
        "foo/bar/fizz".toList).2.nodes =
        [("foo".toList, dirNode), ("foo/bar".toList, dirNode),
         ("foo/bar/fizz".toList, dirNode)]) := by
  have heq := native_mkdir_eq_chain w path hne (by simp only [FS_MAX_PATH]; omega)
  refine ⟨heq, spec_mkdir_attempts_increasing path, ?_, ?_, by decide, by decide⟩
  · obtain ⟨k, hk, ht, h1, h2⟩ := spec_mkdir_chain_trace (spec_mkdir_attempts path) w
    rw [heq]
    refine ⟨k, ?_, hk, ht, h1⟩
    cases hr : (spec_mkdir_chain (spec_mkdir_attempts path) w).1 with
    | false => exact h2 hr
    | true =>
      rw [h1 hr]
      simp [spec_mkdir_attempts]
  · intro v p hp
    unfold _fs_native_mkdir
    have : p.length > FS_MAX_PATH - 1 := by simp only [FS_MAX_PATH]; omega
    simp only [this, if_true]

/-- Witness for C24: the path save/f/sub where save/f is a regular file; the
attempts on save and save/f answer already-exists and the last attempt fails
with another errno. -/
theorem native_mkdir_makes_directory_chain_witness :
    "save/f/sub".toList ≠ [] ∧ "save/f/sub".toList.length ≤ 255 ∧
    _fs_native_mkdir saveWorld "save/f/sub".toList =
      spec_mkdir_chain (spec_mkdir_attempts "save/f/sub".toList) saveWorld ∧
    (_fs_native_mkdir saveWorld "save/f/sub".toList).1 = false ∧
    (_fs_native_mkdir saveWorld "save/f/sub".toList).2.trace =
      [Call.mkdir "save".toList, Call.mkdir "save/f".toList, Call.mkdir "save/f/sub".toList] :=
  ⟨by decide, by decide,
   (native_mkdir_makes_directory_chain saveWorld "save/f/sub".toList (by decide)
      (by decide)).1,
   by decide, by decide⟩

/-- C25 (defect in _fs_native_read). The file save/f holds three bytes and
malloc can deliver two: fs_read returns NULL and the stream it opened on
save/f is still open afterwards, no fclose having been called. In general
fs_write and fs_append leave the open streams as they were, and so does
fs_read except when an entry was found and malloc failed; then it returns NULL
with the stream of that entry left open. -/
theorem fs_read_leaks_stream_when_malloc_fails :
    tightHeapSys.os.handles = [] ∧
    (fs_read tightHeapSys "f".toList 0).1.ptr = none ∧
    (fs_read tightHeapSys "f".toList 0).2.os.handles =
      [⟨"save/f".toList, OpenMode._FS_MREAD⟩] ∧
    (fs_read tightHeapSys "f".toList 0).2.os.trace =
      [Call.stat "save/f".toList, Call.fopen "save/f".toList OpenMode._FS_MREAD,
       Call.ftell "save/f".toList, Call.malloc 3] ∧
    (∀ (σ : Sys) (name : CStr) (data : fs_data),
      (fs_write σ name data).2.os.handles = σ.os.handles ∧
      (fs_append σ name data).2.os.handles = σ.os.handles) ∧
    (∀ (σ : Sys) (name : CStr) (size : Nat),
      (fs_read σ name size).2.os.handles = σ.os.handles ∨
      ((fs_read σ name size).1.ptr = none ∧
        ∃ buf nd, lookupNode σ.os.nodes buf = some nd ∧ σ.os.heap < nd.content.length ∧
          (fs_read σ name size).2.os.handles =
            ⟨buf, OpenMode._FS_MREAD⟩ :: σ.os.handles)) := by
  refine ⟨by decide, by decide, by decide, by decide, ?_, ?_⟩
  · intro σ name data
    exact ⟨fs_write_mode_handles OpenMode._FS_MWRITE (by decide) σ name data,
      fs_write_mode_handles OpenMode._FS_MAPPEND (by decide) σ name data⟩
  · intro σ name size
    exact (fs_read_loop_handles σ.fs name size σ.fs.count σ.os).1

/-- C27 (defect in _fs_native_read). A buffer returned by fs_read holds exactly
size bytes, the content of the file, with no terminating zero behind them. So
strcmp of the buffer against a content without zero bytes runs over all bytes
of the buffer and then reads behind its last byte. For the file save/f of the
read and write tests, fs_read returns its three bytes with size 3 and the
comparison with the content leaves the buffer. -/
theorem fs_read_buffer_is_not_terminated :
    (∀ (σ : Sys) (name : CStr) (size : Nat) (bytes : List Nat),
      (fs_read σ name size).1.ptr = some bytes →
        bytes.length = (fs_read σ name size).1.size) ∧
    (∀ s : List Nat, (∀ b, b ∈ s → b ≠ 0) → strcmp_buf s s = none) ∧
    lookupNode saveSys.os.nodes "save/f".toList = some (regNode [5, 5, 5]) ∧
    (fs_read saveSys "f".toList 0).1 = ⟨some [5, 5, 5], 3⟩ ∧
    strcmp_buf [5, 5, 5] [5, 5, 5] = none ∧
    strcmp_buf [5, 5, 5, 0] [5, 5, 5] = some true := by
  refine ⟨?_, ?_, by decide, by decide, by decide, by decide⟩
  · intro σ name size bytes h
    exact (fs_read_loop_handles σ.fs name size σ.fs.count σ.os).2 bytes h
  · intro s
    induction s with
    | nil => intro _; rfl
    | cons b bs ih =>
      intro hs
      simp only [strcmp_buf, if_true]
      exact ih (fun x hx => hs x (List.mem_cons_of_mem b hx))

/-- C28 (defect in _fs_native_mkdir). The regular file save/f exists and the
write directory is save: fs_mkdir of f calls mkdir on save and on save/f, both
answer already-exists, and fs_mkdir returns true although the entry under
save/f is still the regular file and no directory. In general a true return
means that an entry exists under the join afterwards: a directory if nothing
was there before, and otherwise the entry that was there, whatever its type. -/
theorem fs_mkdir_true_over_regular_file :
    saveSys.fs.write_dir = "save".toList ∧
    lookupNode saveSys.os.nodes "save/f".toList = some (regNode [5, 5, 5]) ∧
    (fs_mkdir saveSys "f".toList).1 = true ∧
    (fs_mkdir saveSys "f".toList).2.os.trace =
      [Call.mkdir "save".toList, Call.mkdir "save/f".toList] ∧
    lookupNode (fs_mkdir saveSys "f".toList).2.os.nodes "save/f".toList =
      some (regNode [5, 5, 5]) ∧
    (regNode [5, 5, 5]).mode ≠ st_mode.S_IFDIR ∧
    (∀ (σ : Sys) (path : CStr), (fs_mkdir σ path).1 = true →
      (lookupNode σ.os.nodes (join_path σ.fs.write_dir path) = none →
        lookupNode (fs_mkdir σ path).2.os.nodes (join_path σ.fs.write_dir path) =
          some ⟨st_mode.S_IFDIR, [], σ.os.now⟩) ∧
      (∀ nd, lookupNode σ.os.nodes (join_path σ.fs.write_dir path) = some nd →
        lookupNode (fs_mkdir σ path).2.os.nodes (join_path σ.fs.write_dir path) =
          some nd)) := by
  refine ⟨by decide, by decide, by decide, ?_⟩
  refine ⟨by decide, by decide, by decide, ?_⟩
  intro σ path ht
  cases hwd : _fs_strempty σ.fs.write_dir with
  | true => simp [fs_mkdir, hwd] at ht
  | false =>
    cases hcp : _fs_concat_path σ.fs.write_dir path with
    | none => simp [fs_mkdir, hwd, hcp] at ht
    | some buf =>
      have hbuf := concat_path_some _ _ _ hcp
      subst hbuf
      obtain ⟨h1, h2⟩ := fs_mkdir_eq_chain σ path hwd hcp
      rw [h1] at ht
      rw [h2]
      have hsome : ∃ nd, lookupNode (spec_mkdir_chain
          (spec_mkdir_attempts (join_path σ.fs.write_dir path)) σ.os).2.nodes
          (join_path σ.fs.write_dir path) = some nd := by
        unfold spec_mkdir_attempts at ht ⊢
        exact spec_mkdir_chain_last _ _ _ ht
      obtain ⟨nd1, hnd1⟩ := hsome
      rcases spec_mkdir_chain_lookup (spec_mkdir_attempts (join_path σ.fs.write_dir path))
        σ.os (join_path σ.fs.write_dir path) with h | ⟨h0, h⟩
      · refine ⟨?_, ?_⟩
        · intro hnone
          rw [h, hnone] at hnd1
          cases hnd1
        · intro nd hnd
          rw [h]
          exact hnd
      · refine ⟨fun _ => h, ?_⟩
        intro nd hnd
        rw [h0] at hnd
        cases hnd

/-- C29 (defect in fs_insert_basepath and fs_setup). After fs_setup with an empty
descriptor, fs_insert_basepath of the empty string succeeds: count is 1 and
slot 0, one of the first count slots, is empty. The same holds right after
fs_setup with the descriptor whose only base path sits in the middle array
slot. For an empty slot the index dirlen - 1 that _fs_concat_path reads is
2^64 - 1, outside the buffer of 256 bytes. -/
theorem empty_mount_is_reachable :
    (fs_insert_basepath (fs_setup (Sys.boot World.blank) emptyDesc) []).1 = true ∧
    (fs_insert_basepath (fs_setup (Sys.boot World.blank) emptyDesc) []).2.fs.count = 1 ∧
    (fs_insert_basepath (fs_setup (Sys.boot World.blank) emptyDesc) []).2.fs.base_path 0 = [] ∧
    mounts (fs_insert_basepath (fs_setup (Sys.boot World.blank) emptyDesc) []).2.fs = [[]] ∧
    mounts (fs_setup (Sys.boot World.blank) gapDesc).fs = [[]] ∧
    concat_last_index [] = 18446744073709551615 ∧
    FS_MAX_PATH ≤ concat_last_index [] ∧
    concat_last_index "foo".toList = 2 := by
  decide

/-- C30. Whenever _fs_concat_path succeeds for a non-empty directory string,
the string it writes has at most 255 characters, so that with its terminating
zero it takes at most the 256 bytes of the destination buffer. -/
theorem concat_path_fits_buffer (dir name buf : CStr) (_hne : dir ≠ [])
    (h : _fs_concat_path dir name = some buf) :
    buf.length ≤ FS_MAX_PATH - 1 ∧ buf.length ≤ 255 ∧ buf.length + 1 ≤ 256 := by
  have := concat_path_length dir name buf h
  simp only [FS_MAX_PATH] at this ⊢
  omega

/-- Witness for C30: the longest join that succeeds, 250 characters joined with
a name of 4. -/
theorem concat_path_fits_buffer_witness :
    mount250 ≠ [] ∧
    _fs_concat_path mount250 "abcd".toList = some (mount250 ++ "/abcd".toList) ∧
    (mount250 ++ "/abcd".toList).length ≤ 255 :=
  ⟨by decide, by set_option maxRecDepth 200000 in decide,
   (concat_path_fits_buffer mount250 "abcd".toList (mount250 ++ "/abcd".toList) (by decide)
      (by set_option maxRecDepth 200000 in decide)).2.1⟩

/-- C31. In a state whose slots from index count on are empty, a successful
fs_insert_basepath of a path followed at once by fs_remove_basepath of the same
path returns true and gives back the system exactly as it was before the
insertion: same count, same content in every slot, all else unchanged. -/
theorem insert_then_remove_restores (σ : Sys) (p : CStr)
    (hempty : ∀ j, σ.fs.count ≤ j → σ.fs.base_path j = [])
    (h : (fs_insert_basepath σ p).1 = true) :
    (fs_remove_basepath (fs_insert_basepath σ p).2 p).1 = true ∧
    (fs_remove_basepath (fs_insert_basepath σ p).2 p).2.fs.count = σ.fs.count ∧
    (∀ j, (fs_remove_basepath (fs_insert_basepath σ p).2 p).2.fs.base_path j =
      σ.fs.base_path j) ∧
    (fs_remove_basepath (fs_insert_basepath σ p).2 p).2 = σ := by
  have hnone : find_mount σ.fs.base_path p σ.fs.count = none := by
    unfold fs_insert_basepath at h
    by_cases hg : p.length ≥ FS_MAX_PATH ∨ σ.fs.count ≥ FS_MAX_MOUNTS
    · simp [hg] at h
    · simp only [hg, if_false] at h
      cases hf : find_mount σ.fs.base_path p σ.fs.count with
      | none => rfl
      | some idx => simp [hf] at h
  have hnew := (find_mount_none_iff _ _ _).mp hnone
  rw [fs_insert_basepath_true_eq σ p h]
  have hfind : find_mount (fun j => if j = σ.fs.count then p else σ.fs.base_path j) p
      (σ.fs.count + 1) = some σ.fs.count := by
    simp [find_mount]
  have hslot : ∀ j, (fs_remove_basepath
      { σ with fs :=
        { σ.fs with base_path := fun j => if j = σ.fs.count then p else σ.fs.base_path j,
                    count := σ.fs.count + 1 } } p).2.fs.base_path j = σ.fs.base_path j := by
    intro j
    simp only [fs_remove_basepath, hfind]
    by_cases h1 : j = σ.fs.count
    · subst h1
      simp [hempty σ.fs.count (Nat.le_refl _)]
    · have h3 : ¬ (σ.fs.count ≤ j ∧ j < σ.fs.count + (σ.fs.count + 1 - σ.fs.count - 1)) := by
        omega
      simp [h1, h3]
  have hcount : (fs_remove_basepath
      { σ with fs :=
        { σ.fs with base_path := fun j => if j = σ.fs.count then p else σ.fs.base_path j,
                    count := σ.fs.count + 1 } } p).2.fs.count = σ.fs.count := by
    simp [fs_remove_basepath, hfind]
  refine ⟨by simp [fs_remove_basepath, hfind], hcount, hslot, ?_⟩
  have hbp := funext hslot
  rcases σ with ⟨⟨cnt, bp, wd, cw, v⟩, os⟩
  simp only [fs_remove_basepath, hfind] at hbp hcount ⊢
  simp only [Sys.mk.injEq, _fs_state_t.mk.injEq, and_true]
  exact ⟨hcount, hbp⟩

/-- Witness for C31: bar is inserted behind the single mount foo and removed
again. -/
theorem insert_then_remove_restores_witness :
    (∀ j, (fs_insert_basepath (Sys.boot World.blank) "foo".toList).2.fs.count ≤ j →
      (fs_insert_basepath (Sys.boot World.blank) "foo".toList).2.fs.base_path j = []) ∧
    (fs_insert_basepath (fs_insert_basepath (Sys.boot World.blank) "foo".toList).2
      "bar".toList).1 = true ∧
    (fs_remove_basepath
      (fs_insert_basepath (fs_insert_basepath (Sys.boot World.blank) "foo".toList).2
        "bar".toList).2 "bar".toList).2 =
      (fs_insert_basepath (Sys.boot World.blank) "foo".toList).2 :=
  have hslot : ∀ j, (fs_insert_basepath (Sys.boot World.blank) "foo".toList).2.fs.count ≤ j →
      (fs_insert_basepath (Sys.boot World.blank) "foo".toList).2.fs.base_path j = [] := by
    intro j hj
    have hc : (fs_insert_basepath (Sys.boot World.blank) "foo".toList).2.fs.count = 1 := by
      decide
    rw [hc] at hj
    have hj0 : j ≠ 0 := by omega
    simp [fs_insert_basepath, Sys.boot, _fs_zero, find_mount, FS_MAX_PATH, FS_MAX_MOUNTS, hj0]
  ⟨hslot, by decide,
   (insert_then_remove_restores (fs_insert_basepath (Sys.boot World.blank) "foo".toList).2
      "bar".toList hslot (by decide)).2.2.2⟩

/-- C32 (defect in get_next_value). For the record 7,Metro,... with eight
fields, the eight values printed by _gtfs__parse_agency are all the first field
7: the call labelled name returns 7 and not Metro. For every line all eight
calls return the same text, the first comma-separated field, because
get_next_value advances a copy of the pointer only. -/
theorem parse_agency_returns_first_field_eight_times :
    spec_fields agencyLine =
      ["7".toList, "Metro".toList, "http://m.example".toList, "UTC".toList, "en".toList,
       "555".toList, "http://m.example/f".toList, "a@m.example".toList] ∧
    (_gtfs__parse_agency agencyLine).map Prod.snd = List.replicate 8 "7".toList ∧
    (_gtfs__parse_agency agencyLine).get? 1 = some ("*name".toList, "7".toList) ∧
    (spec_fields agencyLine).get? 1 = some "Metro".toList ∧
    (get_next_value_scan agencyLine).2 =
      "Metro,http://m.example,UTC,en,555,http://m.example/f,a@m.example".toList ∧
    (∀ line : CStr,
      (_gtfs__parse_agency line).map Prod.snd = List.replicate 8 (get_next_value line)) ∧
    (∀ line : CStr, (spec_fields line).head? = some (get_next_value line)) := by
  refine ⟨by decide, by decide, by decide, by decide, ?_⟩
  refine ⟨by decide, fun line => rfl, ?_⟩
  intro line
  induction line with
  | nil => rfl
  | cons c rest ih =>
    unfold spec_fields get_next_value get_next_value_scan
    by_cases hc : c = ','
    · simp [hc]
    · simp only [hc, if_false]
      cases hs : spec_fields rest with
      | nil =>
        rw [hs] at ih
        cases ih
      | cons f fs =>
        rw [hs] at ih
        simp only [List.head?_cons, Option.some.injEq] at ih ⊢
        rw [ih]
        rfl

end FS
